import Mathlib

/-!
Shallow embedding of the Hunger Games Simulator core (message composer,
event templates, and the game state machine) together with proofs about
the claims of the specification.  Every definition mirrors the TypeScript
source; machine numbers are modelled as `Nat`/`Int`/`Rat`, JS arrays as
`Array`/`List`, and thrown exceptions as explicit error values.
-/

deriving instance DecidableEq for Except

namespace HGS

/-! ## utils.ts -/

/-- The ASCII code of the character `0` (utils.ts `char_zero`). -/
def char_zero : Nat := '0'.toNat

/-- The ASCII code of the character `9` (utils.ts `char_nine`). -/
def char_nine : Nat := '9'.toNat

/-- utils.ts `isdigit`: check if a character is between `'0'` and `'9'`. -/
def isdigit (c : Char) : Bool := decide (char_zero ≤ c.toNat) && decide (c.toNat ≤ char_nine)

/-- utils.ts `clamp`. -/
def clamp (x lo hi : ℚ) : ℚ := min (max x lo) hi

/-! ## tribute.ts -/

/-- The N/A/G/R pronouns used by a tribute (`TributePronouns`). -/
structure TributePronouns where
  nominative : String := ""
  accusative : String := ""
  genitive : String := ""
  reflexive : String := ""
deriving Repr, DecidableEq, Inhabited

/-- A tribute (tribute.ts `Tribute`).  The mutable combat state
(`kills`, `died_in_round`) lives here as plain fields; `died_in_round`
holds the *index* of the round the tribute died in.  Tags are modelled by
their registry ids.  In the source `pronouns` is only ever read when
`uses_pronouns` is true (the constructor guarantees it is set in that
case), so modelling it as an always-present record is faithful. -/
structure Tribute where
  raw_name : String := ""
  pronouns : TributePronouns := {}
  uses_pronouns : Bool := true
  plural : Bool := false
  kills : Nat := 0
  died_in_round : Option Nat := none
  tags : List Nat := []
deriving Repr, DecidableEq, Inhabited

/-- tribute.ts `Tribute.has`: membership test by tag identity. -/
def Tribute.has (t : Tribute) (tag : Nat) : Bool := t.tags.contains tag

/-! ## eventMessage.ts -/

/-- One entry of a `FormattedMessage`: either a plain string or a
`NameSpan` (the value wrapped by the span). -/
inductive Seg where
  | lit (s : String)
  | name (s : String)
deriving Repr, DecidableEq, Inhabited

/-- Errors of `ComposeEventMessage`: the explicit bounds `throw` of
`check_bounds`, and the implicit TypeError raised when `isdigit` is called
on an out-of-range character (template ending in `%` + specifier letter)
or an absent participant's `.name` is read.  `outOfFuel` is an artifact of
the fuelled recursion; the wrapper passes enough fuel for it never to
occur (every recursive call strictly increases the scan position). -/
inductive ComposeErr where
  | bounds (index : Nat)
  | typeError
  | outOfFuel
deriving Repr, DecidableEq, Inhabited

/-- The eleven specifier letters handled by the composer's second switch
group (`N A G R s y i h e ! w`). -/
def specChars : List Char := ['N', 'A', 'G', 'R', 's', 'y', 'i', 'h', 'e', '!', 'w']

/-- Resolved text for a specifier letter (the inner switch of
`ComposeEventMessage`).  Only called with `c ∈ specChars`; the final
branch is the `'w'` case. -/
def specText (c : Char) (t : Tribute) : String :=
  if c = 'N' then (if t.uses_pronouns then t.pronouns.nominative else t.raw_name)
  else if c = 'A' then (if t.uses_pronouns then t.pronouns.accusative else t.raw_name)
  else if c = 'G' then (if t.uses_pronouns then t.pronouns.genitive else t.raw_name ++ "’s")
  else if c = 'R' then (if t.uses_pronouns then t.pronouns.reflexive else t.raw_name)
  else if c = 'e' then (if t.plural then "" else "es")
  else if c = 's' then (if t.plural then "" else "s")
  else if c = 'y' then (if t.plural then "y" else "ies")
  else if c = 'i' then (if t.plural then "are" else "is")
  else if c = 'h' then (if t.plural then "have" else "has")
  else if c = '!' then (if t.plural then "aren\x27t" else "isn\x27t")
  else (if t.plural then "were" else "was")

/-- JS `m.slice(a, b)` on a character list. -/
def slice (m : List Char) (a b : Nat) : String := String.mk ((m.drop a).take (b - a))

/-- Index of the first `'%'` at or after the start of a list (0-based in
the list), or the list's length if there is none. -/
def nextPctAux : List Char → Nat
  | [] => 0
  | c :: cs => if c = '%' then 0 else nextPctAux cs + 1

/-- Index of the first `'%'` at or after position `i` in `m` (the `while`
scan loop of `ComposeEventMessage`), or `m.length` if none remains. -/
def nextPct (m : List Char) (i : Nat) : Nat := i + nextPctAux (m.drop i)

/-- The scan loop of `ComposeEventMessage`.  `prev`/`i` are the source's
cursor variables; each iteration pushes the pending literal run
`m.slice(prev, i)` (possibly empty) and then handles one `%` attempt.
The recursion is fuelled: every recursive call strictly increases `i`, so
`m.length + 1` fuel always suffices (see `composeGo_fuel`). -/
def composeGo (count : Nat) (parts : List Tribute) (m : List Char) :
    Nat → Nat → Nat → Except ComposeErr (List Seg)
  | 0, _, _ => .error .outOfFuel
  | fuel + 1, prev, i =>
    let j := nextPct m i
    let lit : Seg := .lit (slice m prev j)
    if m.length ≤ j then
      -- scan hit the end of the template: push the pending literal, stop
      .ok [lit]
    else
      let k := j + 1
      match m.get? k with
      | none =>
        -- `%` is the final character: `i++` moves past the end and the
        -- loop breaks; the trailing `if (prev < m.length)` re-emits it
        .ok [lit, .lit (slice m j m.length)]
      | some c =>
        if isdigit c then
          let d := c.toNat - char_zero
          if count ≤ d then .error (.bounds d)
          else
            match parts.get? d with
            | none => .error .typeError
            | some t =>
              let ref : Seg := .name t.raw_name
              if m.length ≤ k + 1 then
                -- the digit ends the template: `break outer` skips the
                -- `prev = i` update, so the trailing push emits the
                -- already-consumed `%d` again
                .ok [lit, ref, .lit (slice m j m.length)]
              else
                (composeGo count parts m fuel (k + 1) (k + 1)).map
                  (fun rest => lit :: ref :: rest)
        else if specChars.contains c then
          match m.get? (k + 1) with
          | none =>
            -- `isdigit(m[i])` with `i` past the end: charCodeAt of
            -- undefined throws a TypeError in the source
            .error .typeError
          | some c2 =>
            if isdigit c2 then
              let d := c2.toNat - char_zero
              if count ≤ d then .error (.bounds d)
              else
                match parts.get? d with
                | none => .error .typeError
                | some t =>
                  (composeGo count parts m fuel (k + 2) (k + 2)).map
                    (fun rest => lit :: .lit (specText c t) :: rest)
            else
              -- known letter not followed by a digit: `continue` resumes
              -- the literal scan after the letter, `prev` unchanged
              (composeGo count parts m fuel j (k + 1)).map (fun rest => lit :: rest)
        else
          -- unknown specifier: `continue` with `i` still at the char
          -- after the `%`, `prev` unchanged
          (composeGo count parts m fuel j k).map (fun rest => lit :: rest)

/-- eventMessage.ts `ComposeEventMessage`, as a function of the event's
`players_involved` (`count`), its bound participant list and the message
template. -/
def ComposeEventMessage (count : Nat) (parts : List Tribute) (m : String) :
    Except ComposeErr (List Seg) :=
  composeGo count parts m.data (m.data.length + 1) 0 0

/-! ## events.ts -/

/-- The character class of the participant-counting regex
`/%[NAGRsyih!]?(\d)/g`.  Note that the composer's letters `e` and `w` are
absent here. -/
def regexClass : List Char := ['N', 'A', 'G', 'R', 's', 'y', 'i', 'h', '!']

/-- Digits captured by the global regex `/%[NAGRsyih!]?(\d)/g` scanning
left to right (greedy optional class character, non-overlapping
matches). -/
def calcDigits : List Char → List Nat
  | '%' :: c :: d :: rest =>
    if regexClass.contains c && isdigit d then (d.toNat - char_zero) :: calcDigits rest
    else if isdigit c then (c.toNat - char_zero) :: calcDigits (d :: rest)
    else calcDigits (c :: d :: rest)
  | '%' :: c :: [] => if isdigit c then [c.toNat - char_zero] else []
  | _ :: rest => calcDigits rest
  | [] => []

/-- events.ts `CalculateTributesInvolved`: 1 + the maximum digit captured
by the regex, or 0 when the regex does not match. -/
def CalculateTributesInvolved (m : String) : Nat :=
  match (calcDigits m.data).max? with
  | none => 0
  | some v => v + 1

/-- An event template (events.ts `Event`).  `requirements` holds
`(tag id, player_index)` pairs.  The auto-increment `id` is not
semantically load-bearing and is omitted. -/
structure Event where
  message : String := ""
  players_involved : Nat := 1
  fatalities : List Nat := []
  killers : List Nat := []
  enabled : Bool := true
  type : String := "BUILTIN"
  requirements : List (Nat × Nat) := []
deriving Repr, DecidableEq, Inhabited

/-- JS `String.prototype.trim` (the templates of interest contain no
exotic Unicode whitespace, so ASCII whitespace trimming is faithful). -/
def jsTrim (s : String) : String :=
  String.mk (((s.data.dropWhile Char.isWhitespace).reverse.dropWhile Char.isWhitespace).reverse)

/-- The `Event` constructor.  `Math.max(...l)` of an empty list is
`-Infinity`, so the fatality/killer checks pass vacuously for empty
lists, which `List.any` models. -/
def mkEvent (message : String) (fatalities : List Nat := []) (killers : List Nat := [])
    (type : String := "BUILTIN") : Except String Event :=
  let trimmed := jsTrim message
  if trimmed.length = 0 then .error "Event message cannot be empty!"
  else
    let pi := CalculateTributesInvolved message
    if pi < 1 ∨ 9 < pi then .error "event is ill-formed"
    else if fatalities.any (fun f => pi ≤ f) then .error "Deaths are invalid"
    else if killers.any (fun k => pi ≤ k) then .error "Killers are invalid"
    else .ok { message := trimmed, players_involved := pi, fatalities := fatalities,
               killers := killers, type := type }

/-! ## Randomness

`Math.random` is modelled as a stream `Nat → ℚ` of values together with a
running index: every call to the source consumes the next value.  JS
doubles are modelled as exact rationals. -/

/-- A random source: the `n`-th value returned by `Math.random`. -/
def RandSrc : Type := Nat → ℚ

/-- Build a random source from a finite list (0 once exhausted). -/
def randOfList (l : List ℚ) : RandSrc := fun n => l.getD n 0

/-- Multiplication on `ℚ`, written through `mkRat` so that it evaluates
in the kernel (`Rat.mul` is irreducible); `ratMul_eq` identifies it with
the ordinary product. -/
def ratMul (a b : ℚ) : ℚ := mkRat (a.num * b.num) (a.den * b.den)

/-- Subtraction on `ℚ`, written through `mkRat` for the same reason;
`ratSub_eq` identifies it with the ordinary difference. -/
def ratSub (a b : ℚ) : ℚ := mkRat (a.num * b.den - b.num * a.den) (a.den * b.den)

/-- `Math.floor` on rationals (round toward negative infinity), written
with `Int.fdiv` so that it evaluates in the kernel. -/
def ratFloor (q : ℚ) : ℤ := q.num.fdiv q.den

/-- `Math.ceil` on rationals (round toward positive infinity). -/
def ratCeil (q : ℚ) : ℤ := -ratFloor (-q)

/-- utils.ts `randomInt(0, n)`: `Math.floor(Math.random() * n)`. -/
def randIdx (q : ℚ) (n : Nat) : Nat := (ratFloor (ratMul q (n : ℚ))).toNat

/-- Swap two positions of an array (the three-assignment swap inside
utils.ts `shuffle`; the source only calls it with indices in bounds). -/
def arrSwap (a : Array α) (i j : Nat) : Array α :=
  if h : i < a.size ∧ j < a.size then
    (a.set ⟨i, h.1⟩ (a.get ⟨j, h.2⟩)).set ⟨j, by simpa using h.2⟩ (a.get ⟨i, h.1⟩)
  else a

/-- The loop of utils.ts `shuffle`: `i` runs from `size - 1` down to `1`,
swapping position `i` with `randomInt(0, i)`. -/
def shuffleGo (f : RandSrc) : Array α → Nat → Nat → Array α × Nat
  | a, 0, ix => (a, ix)
  | a, i + 1, ix => shuffleGo f (arrSwap a (i + 1) (randIdx (f ix) (i + 1))) i (ix + 1)

/-- utils.ts `shuffle` (arrays of length < 2 are returned unchanged and
consume no randomness). -/
def shuffle (f : RandSrc) (a : Array α) (ix : Nat) : Array α × Nat :=
  if a.size < 2 then (a, ix) else shuffleGo f a (a.size - 1) ix

/-! ## types.ts / gameOptions.ts -/

/-- types.ts `GameStage`. -/
inductive GameStage where
  | bloodbath | day | night | feast
deriving Repr, DecidableEq, Inhabited

/-- game.ts `GameState`.  `INITIAL = NEW_ROUND`. -/
inductive GameState where
  | DEAD | NEW_ROUND | IN_ROUND | THE_FALLEN | END_RESULTS
  | END_WINNER | END_SUMMARY_FATALITIES | END_SUMMARY_STATS | END
deriving Repr, DecidableEq, Inhabited

/-- game.ts `RenderState`. -/
inductive RenderState where
  | GAME_OVER | ROUND_EVENTS | ROUND_DEATHS | WINNERS | GAME_DEATHS | STATS
deriving Repr, DecidableEq, Inhabited

/-- gameOptions.ts `GreyscaleSettings` (opaque pass-through data). -/
structure GreyscaleSettings where
  in_events : Bool := false
  end_of_day_summary : Bool := true
  end_of_game_summary : Bool := false
deriving Repr, DecidableEq, Inhabited

/-- gameOptions.ts `RequiredFatalitiesMode`. -/
inductive RequiredFatalitiesMode where
  | Disable | Percent | Absolute
deriving Repr, DecidableEq, Inhabited

/-- gameOptions.ts `GameOptions` (the ambient `GameSettings` record read
by the `Game` constructor). -/
structure GameOptions where
  required_fatalities_mode : RequiredFatalitiesMode := .Disable
  required_fatalities : ℚ := 0
  starting_day : Option ℚ := none
  greyscale_settings : GreyscaleSettings := {}
deriving Repr, DecidableEq, Inhabited

/-- A bound in-game event (types.ts `GameEvent`): the chosen template,
the participating tributes (as indices into `Game.tributes`) and the
precomputed composed message. -/
structure GameEvent where
  event : Event
  players_involved : List Nat
  message : List Seg
deriving Repr, DecidableEq, Inhabited

/-- types.ts `GameRound`. `died_this_round` holds tribute indices. -/
structure GameRound where
  game_events : Array GameEvent
  died_this_round : Array Nat
  index : Nat
  stage : GameStage
deriving Repr, DecidableEq, Inhabited

/-- types.ts `GameEventList`: the four per-stage pools owned by a game. -/
structure GameEventPools where
  bloodbath : Array Event := #[]
  day : Array Event := #[]
  night : Array Event := #[]
  feast : Array Event := #[]
deriving Repr, DecidableEq, Inhabited

/-- types.ts `EventList`: the optional event lists passed to the `Game`
constructor. -/
structure EventList where
  bloodbath : Option (Array Event) := none
  day : Option (Array Event) := none
  night : Option (Array Event) := none
  feast : Option (Array Event) := none
  all : Option (Array Event) := none
deriving Repr, DecidableEq, Inhabited

/-! ## game.ts: the Game aggregate -/

/-- Errors surfaced by `Game.AdvanceGame`: an exception from message
composition during round simulation, the internal-state error thrown by
the state machine's default branch, and the fuel artifact of the
round-simulation loop (which cannot occur for pools of constructor-valid
events, see the round-termination theorem). -/
inductive GameErr where
  | compose (e : ComposeErr)
  | internalState
  | outOfFuel
deriving Repr, DecidableEq, Inhabited

/-- The `Game` class.  Tributes are stored once in `tributes`; the alive
roster and all death bookkeeping reference them by index, which models
the JS object aliasing. -/
structure Game where
  tributes : Array Tribute
  tributes_alive : Array Nat
  tributes_died : Array Nat
  state : GameState
  game_title : String
  last_feast : Nat
  stage : GameStage
  fatality_reroll_rate : ℚ
  all_won : Bool
  rounds : Array GameRound
  days_passed : Nat
  nights_passed : Nat
  event_list : GameEventPools
  required_fatalities : Option ℚ
  greyscale_settings : GreyscaleSettings
deriving Repr, DecidableEq, Inhabited

/-- game.ts `GameRenderState` (the render snapshot). -/
structure GameRenderState where
  state : RenderState
  game_title : String
  rounds : Array GameRound
  tributes_died : Array Nat
  tributes_alive : Array Nat
  greyscale_settings : GreyscaleSettings
deriving Repr, DecidableEq, Inhabited

/-- `Game.#AddEvents`: the `all` list feeds every stage pool, then each
per-stage list is appended; only enabled events are taken. -/
def AddEvents (src : EventList) : GameEventPools :=
  let part : Option (Array Event) → Array Event
    | some a => a.filter (·.enabled)
    | none => #[]
  let base := part src.all
  { bloodbath := base ++ part src.bloodbath,
    day := base ++ part src.day,
    night := base ++ part src.night,
    feast := base ++ part src.feast }

/-- `Math.max(0, Math.floor(d - 1))` for the starting-day offset. -/
def startDay (opts : GameOptions) : Nat :=
  match opts.starting_day with
  | none => 0
  | some d => (ratFloor (ratSub d 1)).toNat

/-- The `Game` constructor.  The `isFinite` guards of the source always
hold for rationals and are dropped. -/
def mkGame (tributes : List Tribute) (events : EventList) (opts : GameOptions)
    (fatality_reroll_rate : ℚ := mkRat 6 10) : Game :=
  let n := tributes.length
  { tributes := tributes.toArray,
    tributes_alive := Array.range n,
    tributes_died := #[],
    state := .NEW_ROUND,
    game_title := "",
    last_feast := 0,
    stage := .bloodbath,
    fatality_reroll_rate := fatality_reroll_rate,
    all_won := false,
    rounds := #[],
    days_passed := startDay opts,
    nights_passed := startDay opts,
    event_list := AddEvents events,
    required_fatalities :=
      match opts.required_fatalities_mode with
      | .Disable => none
      | .Percent =>
        -- ceil((clamp(v, 0, 100) / 100) * n), with the division by 100
        -- written as multiplication by 1/100
        some ((ratCeil (ratMul (ratMul (clamp opts.required_fatalities 0 100) (mkRat 1 100))
          (n : ℚ)) : ℤ) : ℚ)
      | .Absolute => some (max 0 opts.required_fatalities),
    greyscale_settings := opts.greyscale_settings }

/-- The event pool selected for a stage (the `switch` in
`Game.#DoRoundImpl`). -/
def stagePool (pools : GameEventPools) : GameStage → Array Event
  | .bloodbath => pools.bloodbath
  | .day => pools.day
  | .night => pools.night
  | .feast => pools.feast

/-- The tag-requirement loop of `Game.#RequirementsSatisfied`.  The
source indexes `tributes_alive[current_tribute + player_index]` directly;
for constructor-valid events that access is always in bounds, so the
`none` fallback is unreachable there. -/
def tagReqsOk (trs : Array Tribute) (alive : Array Nat) (ct : Nat)
    (reqs : List (Nat × Nat)) : Bool :=
  reqs.all (fun r =>
    match alive.get? (ct + r.2) with
    | some tIdx => (trs.getD tIdx default).has r.1
    | none => false)

/-- `Game.#RequirementsSatisfied`.  `req.getD 0 ≠ 0` is exactly the JS
truthiness test `if (this.required_fatalities)` (false for `undefined`
and for `0`).  A random value is consumed only on the fatality-reroll
branch. -/
def RequirementsSatisfied (req : Option ℚ) (rate : ℚ) (trs : Array Tribute)
    (alive : Array Nat) (e : Event) (ct tl dtr : Nat) (f : RandSrc) (ix : Nat) :
    Bool × Nat :=
  if tl < e.players_involved then (false, ix)
  else
    let reqv := req.getD 0
    if reqv ≠ 0 then
      if (dtr : ℚ) < reqv ∧ e.fatalities = [] then (false, ix)
      else if reqv ≤ (dtr : ℚ) ∧ e.fatalities ≠ [] then (false, ix)
      else (tagReqsOk trs alive ct e.requirements, ix)
    else if e.fatalities ≠ [] then
      if f ix < rate then (false, ix + 1)
      else (tagReqsOk trs alive ct e.requirements, ix + 1)
    else (tagReqsOk trs alive ct e.requirements, ix)

/-- The draw-attempt budget: the `do`-`while` breaks once
`tries > max(100, pool.size * 10)`, so at most budget + 1 draws occur. -/
def drawBudget (pool : Array Event) : Nat := max 100 (pool.size * 10)

/-- The `do`-`while` draw loop of `Game.#DoRoundImpl`: `n` is the number
of draws still allowed; `none` models the `break outer` on budget
exhaustion. -/
def drawEvent (f : RandSrc) (pool : Array Event) (req : Option ℚ) (rate : ℚ)
    (trs : Array Tribute) (alive : Array Nat) (ct tl dtr : Nat) :
    Nat → Nat → Option Event × Nat
  | 0, ix => (none, ix)
  | n + 1, ix =>
    let e := pool.getD (randIdx (f ix) pool.size) default
    let s := RequirementsSatisfied req rate trs alive e ct tl dtr f (ix + 1)
    if s.1 then (some e, s.2)
    else drawEvent f pool req rate trs alive ct tl dtr n s.2

/-- How the `outer` loop of `Game.#DoRoundImpl` ended: normally
(`tributes_left` reached 0), by budget exhaustion (`break outer`), by the
fewer-than-two-alive early break, by an exception from message
composition, or by running out of fuel (an artifact of the model; cannot
occur for constructor-valid pools). -/
inductive RoundExit where
  | done | budget | fewAlive | err (e : ComposeErr) | fuelOut
deriving Repr, DecidableEq, Inhabited

/-- Result of the round-simulation loop. -/
structure LoopOut where
  tributes : Array Tribute
  round : GameRound
  ix : Nat
  exit : RoundExit
deriving Repr, DecidableEq, Inhabited

/-- Outcome of one iteration of the `outer` loop: either the loop ends
with a `LoopOut`, or it continues with the updated loop variables. -/
inductive StepRes where
  | exit (out : LoopOut)
  | next (trs : Array Tribute) (rd : GameRound) (ct tl : Nat) (ac : Int) (dtr ix : Nat)
deriving Repr, DecidableEq, Inhabited

/-- One iteration of the `outer: while (tributes_left)` loop of
`Game.#DoRoundImpl` (entered with `tributes_left ≠ 0`): draw an event
under the budget, apply its fatalities and kill credits, bind and
compose it, and either break out or continue with the advanced window.
`alive` (the shuffled roster) is fixed for the whole round; `trs` is the
mutating tribute store; `ct`/`tl`/`ac`/`dtr` are `current_tribute`,
`tributes_left`, the local `tributes_alive` counter and
`died_this_round`.  Out-of-range roster accesses (impossible for
constructor-valid pools, where the source would throw) are modelled by a
no-op sentinel index `trs.size`. -/
def roundIter (f : RandSrc) (pool : Array Event) (req : Option ℚ) (rate : ℚ)
    (alive : Array Nat) (trs : Array Tribute) (rd : GameRound)
    (ct tl : Nat) (ac : Int) (dtr ix : Nat) : StepRes :=
  let dr := drawEvent f pool req rate trs alive ct tl dtr (drawBudget pool + 1) ix
  match dr.1 with
  | none => .exit ⟨trs, rd, dr.2, .budget⟩
  | some e =>
    let tl' := tl - e.players_involved
    let idxs := e.fatalities.map (fun fslot => alive.getD (ct + fslot) trs.size)
    let trs₁ := idxs.foldl
      (fun a i => a.modify i (fun t => { t with died_in_round := some rd.index })) trs
    let rd₁ := { rd with died_this_round := rd.died_this_round ++ idxs.toArray }
    let ac₁ := ac - e.fatalities.length
    let dtr₁ := dtr + e.fatalities.length
    let trs₂ := e.killers.foldl
      (fun a k => a.modify (alive.getD (ct + k) a.size)
        (fun t => { t with kills := t.kills + e.fatalities.length })) trs₁
    let players := (List.range e.players_involved).map (fun o => alive.getD (ct + o) trs₂.size)
    let ct' := ct + e.players_involved
    match ComposeEventMessage e.players_involved
        (players.map (fun i => trs₂.getD i default)) e.message with
    | .error em => .exit ⟨trs₂, rd₁, dr.2, .err em⟩
    | .ok msg =>
      let rd₂ := { rd₁ with game_events := rd₁.game_events.push ⟨e, players, msg⟩ }
      if ac₁ < 2 then .exit ⟨trs₂, rd₂, dr.2, .fewAlive⟩
      else .next trs₂ rd₂ ct' tl' ac₁ dtr₁ dr.2

/-- The `outer: while (tributes_left)` loop of `Game.#DoRoundImpl`,
driven by `roundIter`.  The recursion is fuelled; since every accepted
event involves at least one player for constructor-valid pools,
`tributes_left + 1` fuel always suffices (see the round-termination
theorem). -/
def roundLoop (f : RandSrc) (pool : Array Event) (req : Option ℚ) (rate : ℚ)
    (alive : Array Nat) :
    Nat → Array Tribute → GameRound → Nat → Nat → Int → Nat → Nat → LoopOut
  | 0, trs, rd, _, _, _, _, ix => ⟨trs, rd, ix, .fuelOut⟩
  | fuel + 1, trs, rd, ct, tl, ac, dtr, ix =>
    if tl = 0 then ⟨trs, rd, ix, .done⟩
    else
      match roundIter f pool req rate alive trs rd ct tl ac dtr ix with
      | .exit out => out
      | .next trs' rd' ct' tl' ac' dtr' ix' =>
        roundLoop f pool req rate alive fuel trs' rd' ct' tl' ac' dtr' ix'

/-- The round title set by `Game.#DoRoundImpl` (`TitleCase` of the stage
string for bloodbath/feast). -/
def stageTitle (g : Game) : String :=
  match g.stage with
  | .day => "Day " ++ toString g.days_passed
  | .night => "Night " ++ toString g.nights_passed
  | .bloodbath => "Bloodbath"
  | .feast => "Feast"

/-- The tail of `Game.#DoRoundImpl` after the selection loop: on an
exception (or fuel exhaustion) the partially filled round is kept and
the error propagates with all mutations made so far; otherwise the
bound-event list is shuffled for display order, the newly dead are
filtered out of the alive roster, and the round's deaths are appended to
the accumulation buffer.  `g₁` is the game as mutated before the loop
(title set, roster shuffled). -/
def roundFinish (f : RandSrc) (g₁ : Game) (out : LoopOut) : Game × Nat × Option GameErr :=
  match out.exit with
  | .err e =>
    ({ g₁ with tributes := out.tributes, rounds := g₁.rounds.push out.round },
      out.ix, some (.compose e))
  | .fuelOut =>
    ({ g₁ with tributes := out.tributes, rounds := g₁.rounds.push out.round },
      out.ix, some .outOfFuel)
  | _ =>
    let sh₂ := shuffle f out.round.game_events out.ix
    let rd₂ := { out.round with game_events := sh₂.1 }
    let alive₂ :=
      g₁.tributes_alive.filter (fun i => (out.tributes.getD i default).died_in_round = none)
    ({ g₁ with tributes := out.tributes,
               tributes_alive := alive₂,
               tributes_died := g₁.tributes_died ++ rd₂.died_this_round,
               rounds := g₁.rounds.push rd₂ }, sh₂.2, none)

/-- `Game.#DoRoundImpl`.  The round record is appended to `rounds` on
every exit (the source pushes it up front and then mutates it in
place). -/
def DoRoundImpl (f : RandSrc) (g : Game) (ix : Nat) : Game × Nat × Option GameErr :=
  let tl := g.tributes_alive.size
  let g₀ := { g with game_title := stageTitle g }
  let rd : GameRound :=
    { game_events := #[], died_this_round := #[], index := g.rounds.size, stage := g.stage }
  let sh := shuffle f g.tributes_alive ix
  let g₁ := { g₀ with tributes_alive := sh.1 }
  let pool := stagePool g.event_list g.stage
  if pool.size = 0 then ({ g₁ with rounds := g₁.rounds.push rd }, sh.2, none)
  else
    roundFinish f g₁ (roundLoop f pool g.required_fatalities g.fatality_reroll_rate sh.1
      (tl + 1) g₁.tributes rd 0 tl (tl : Int) 0 sh.2)

/-- The feast probability for `r` rounds since the last feast (the three
guarded `Math.random()` comparisons in `Game.#AdvanceGameStage`).  The
double constants `.25`, `.33`, `.50` are modelled as the rationals 1/4,
33/100, 1/2; none of the proved claims depends on their exact values.
`(r : ℚ) - 4` is written as the cast of the Nat subtraction, which
agrees since this is only consulted when `5 ≤ r`. -/
def feastChance (r : Nat) : ℚ :=
  if 7 ≤ r then ratMul (mkRat 1 2) ((r - 4 : Nat) : ℚ)
  else if 6 ≤ r then ratMul (mkRat 33 100) ((r - 4 : Nat) : ℚ)
  else ratMul (mkRat 1 4) ((r - 4 : Nat) : ℚ)

/-- `Game.#AdvanceGameStage`. -/
def AdvanceGameStage (f : RandSrc) (g : Game) (ix : Nat) : GameStage × Game × Nat :=
  if g.rounds.size = 0 then (.bloodbath, g, ix)
  else if g.stage = .feast ∨ g.stage = .bloodbath then
    (.day, { g with days_passed := g.days_passed + 1 }, ix)
  else if g.stage = .night then
    if 5 ≤ g.rounds.size - g.last_feast then
      if f ix > feastChance (g.rounds.size - g.last_feast) then
        (.day, { g with days_passed := g.days_passed + 1 }, ix + 1)
      else (.feast, { g with last_feast := g.rounds.size }, ix + 1)
    else (.day, { g with days_passed := g.days_passed + 1 }, ix)
  else (.night, { g with nights_passed := g.nights_passed + 1 }, ix)

/-- `Game.#CheckGameShouldEnd`. -/
def CheckGameShouldEnd (g : Game) : Game × Bool :=
  if g.tributes_alive.size < 2 ∨ g.all_won then ({ g with state := .END_RESULTS }, true)
  else (g, false)

/-- The tail of `Game.#DoRound` after round simulation: a thrown
exception propagates with the mutations made so far kept; otherwise the
end condition is checked and, if the game did not just end and the
round's stage was night, the machine is sent to the fallen screen. -/
def roundEndCheck : Game × Nat × Option GameErr → Game × Nat × Option GameErr
  | (g, ix, some e) => (g, ix, some e)
  | (g, ix, none) =>
    if ¬(CheckGameShouldEnd g).2 ∧ (CheckGameShouldEnd g).1.stage = .night then
      ({ (CheckGameShouldEnd g).1 with state := .THE_FALLEN }, ix, none)
    else ((CheckGameShouldEnd g).1, ix, none)

/-- `Game.#DoRound`: advance the stage, simulate the round, then check
the end condition. -/
def DoRound (f : RandSrc) (g : Game) (ix : Nat) : Game × Nat × Option GameErr :=
  roundEndCheck (DoRoundImpl f
    { (AdvanceGameStage f g ix).2.1 with stage := (AdvanceGameStage f g ix).1 }
    (AdvanceGameStage f g ix).2.2)

/-- `Game.#TickRenderState`: the display kind computed from the
pre-transition state. -/
def TickRenderState : GameState → RenderState
  | .NEW_ROUND | .IN_ROUND => .ROUND_EVENTS
  | .THE_FALLEN | .END_RESULTS => .ROUND_DEATHS
  | .END_WINNER => .WINNERS
  | .END_SUMMARY_FATALITIES => .GAME_DEATHS
  | .END_SUMMARY_STATS => .STATS
  | .DEAD | .END => .GAME_OVER

/-- `this.tributes.filter(t => t.died_in_round !== undefined)` as tribute
indices, in roster order. -/
def deadIndices (g : Game) : Array Nat :=
  (Array.range g.tributes.size).filter
    (fun i => (g.tributes.getD i default).died_in_round ≠ none)

/-- The `GameRenderState` built at the end of `Game.#AdvanceGame`: the
tributes-died field is the full death record exactly when the
post-transition state is `END`, else the accumulation buffer. -/
def mkRenderState (rs : RenderState) (g : Game) : GameRenderState :=
  { state := rs,
    game_title := g.game_title,
    rounds := g.rounds,
    tributes_died := if g.state = .END then deadIndices g else g.tributes_died,
    tributes_alive := g.tributes_alive,
    greyscale_settings := g.greyscale_settings }

/-- Packaging of `Game.#AdvanceGame`'s result: an exception thrown during
the transition is caught by `Game.#Try` and returned as an error value. -/
def roundResult (rs : RenderState) (g : Game) :
    Option GameErr → Except GameErr GameRenderState
  | some e => .error e
  | none => .ok (mkRenderState rs g)

/-- `Game.AdvanceGame` (public tick = `#Try` around `#AdvanceGame`): one
state-machine transition returning the snapshot or the captured error,
together with the mutated game and the advanced random index. -/
def Game.AdvanceGame (f : RandSrc) (g : Game) (ix : Nat) :
    Except GameErr GameRenderState × Game × Nat :=
  let rs := TickRenderState g.state
  match g.state with
  | .NEW_ROUND =>
    let g₁ := { g with state := .IN_ROUND, tributes_died := #[] }
    let res := DoRound f g₁ ix
    (roundResult rs res.1 res.2.2, res.1, res.2.1)
  | .IN_ROUND =>
    let res := DoRound f g ix
    (roundResult rs res.1 res.2.2, res.1, res.2.1)
  | .THE_FALLEN =>
    let g₂ := { g with game_title := "The Fallen", state := .NEW_ROUND }
    (.ok (mkRenderState rs g₂), g₂, ix)
  | .END_RESULTS =>
    let g₂ := { g with game_title := "The Fallen", state := .END_WINNER }
    (.ok (mkRenderState rs g₂), g₂, ix)
  | .END_WINNER =>
    let g₂ := { g with game_title := "The Games Have Ended", state := .END_SUMMARY_FATALITIES }
    (.ok (mkRenderState rs g₂), g₂, ix)
  | .END_SUMMARY_FATALITIES =>
    let g₂ := { g with game_title := "Deaths", state := .END_SUMMARY_STATS }
    (.ok (mkRenderState rs g₂), g₂, ix)
  | .END_SUMMARY_STATS =>
    let g₂ := { g with
      game_title := if g.tributes_alive.size ≠ 0 then "Winners" else "The Fallen",
      state := .END }
    (.ok (mkRenderState rs g₂), g₂, ix)
  | .END => (.ok (mkRenderState rs g), g, ix)
  | .DEAD =>
    -- the `default` branch: mark the machine dead and throw
    (.error .internalState, { g with state := .DEAD }, ix)

/-- Repeated external ticks, collecting every returned result. -/
def advanceIter (f : RandSrc) :
    Nat → Game → Nat → Game × Nat × List (Except GameErr GameRenderState)
  | 0, g, ix => (g, ix, [])
  | n + 1, g, ix =>
    let st := Game.AdvanceGame f g ix
    let rest := advanceIter f n st.2.1 st.2.2
    (rest.1, rest.2.1, st.1 :: rest.2.2)

/-! ## Statement-level predicates -/

/-- The participant slot referenced by a placeholder attempt starting at
position `p` of the template, as the composer's scanner reads it: a `%`
followed by a digit, or a `%` followed by a specifier letter and a
digit. -/
def slotAt (m : List Char) (p : Nat) : Option Nat :=
  if m.get? p = some '%' then
    match m.get? (p + 1) with
    | some c =>
      if isdigit c then some (c.toNat - char_zero)
      else if specChars.contains c then
        match m.get? (p + 2) with
        | some c2 => if isdigit c2 then some (c2.toNat - char_zero) else none
        | none => none
      else none
    | none => none
  else none

/-- Every slot referenced anywhere in the template is below `count` (the
construction precondition of the claims, phrased over the scanner's
placeholder occurrences). -/
def slotsOk (count : Nat) (m : List Char) : Bool :=
  (List.range m.length).all (fun p => ((slotAt m p).map (fun d => decide (d < count))).getD true)

/-- The template ends in `%` followed by a bare specifier letter, the
shape on which the source's `isdigit(m[i])` call crashes. -/
def trailingSpecCrash (m : List Char) : Bool :=
  decide (2 ≤ m.length) &&
    decide (m.get? (m.length - 2) = some '%') &&
    ((m.get? (m.length - 1)).map specChars.contains).getD false

/-- The death round recorded for tribute `i` of a game. -/
def diedOf (g : Game) (i : Nat) : Option Nat :=
  (g.tributes.getD i default).died_in_round

/-- Every member of the alive roster has no death record (the alive-dead
separation invariant at the advance boundary). -/
def AliveUndead (g : Game) : Prop :=
  ∀ i ∈ g.tributes_alive.toList, diedOf g i = none

/-- The death round recorded in a raw tribute store. -/
def diedT (a : Array Tribute) (i : Nat) : Option Nat :=
  (a.getD i default).died_in_round

/-- How death records may change during one simulated round whose roster
is `alive` and whose index is `rdIdx`: each tribute keeps its record, or
is a roster member whose record becomes the current round. -/
def DiedEvolve (alive : Array Nat) (rdIdx : Nat) (a b : Array Tribute) : Prop :=
  ∀ i, diedT b i = diedT a i ∨ (diedT b i = some rdIdx ∧ i ∈ alive.toList)

/-- The deterministic stages of the first four rounds. -/
def canonicalStages : List GameStage := [.bloodbath, .day, .night, .day]

/-- The stage-sequencing invariant: the first four recorded rounds carry
the canonical stages, and while at most four rounds exist no feast has
been recorded and the current stage field tracks the last round's
canonical stage. -/
def StageInv (g : Game) : Prop :=
  (∀ i, i < 4 → ∀ gr, g.rounds[i]? = some gr → gr.stage = canonicalStages.getD i .day) ∧
  (g.rounds.size ≤ 4 →
    g.last_feast = 0 ∧
    g.stage = (if g.rounds.size = 0 then GameStage.bloodbath
               else canonicalStages.getD (g.rounds.size - 1) .day))

/-! ## Concrete fixtures used by counterexamples and witnesses -/

/-- A named tribute without pronouns. -/
def tributeA : Tribute := { raw_name := "A", uses_pronouns := false }

/-- A second named tribute without pronouns. -/
def tributeB : Tribute := { raw_name := "B", uses_pronouns := false }

/-- A third named tribute without pronouns. -/
def tributeC : Tribute := { raw_name := "C", uses_pronouns := false }

/-- A tribute using they/them pronouns (plural agreement). -/
def tributeThey : Tribute :=
  { raw_name := "D", pronouns := ⟨"they", "them", "their", "themself"⟩,
    uses_pronouns := true, plural := true }

/-- A two-player event whose second participant dies, credited to the
first (equals `mkEvent "%0 kills %1" [1] [0]`). -/
def evKill : Event :=
  { message := "%0 kills %1", players_involved := 2, fatalities := [1], killers := [0] }

/-- A harmless one-player event (equals `mkEvent "%0 naps"`). -/
def evNap : Event := { message := "%0 naps", players_involved := 1 }

/-- A constructible event whose template references slot 1 through `%w`,
which the counting regex ignores, so `players_involved = 1` and its
composition throws a bounds error (equals `mkEvent "%0 pokes %w1"`). -/
def evPoke : Event := { message := "%0 pokes %w1", players_involved := 1 }

/-- The all-zeroes random source. -/
def zeroRand : RandSrc := fun _ => 0

/-- Pools driving the C1 counterexample game: a kill available in the
bloodbath and day pools. -/
def cex1Pools : EventList :=
  { bloodbath := some #[evKill, evNap], day := some #[evNap, evKill], night := some #[evNap] }

/-- Three tributes, no required fatalities: the bloodbath kills one
tribute, the fallen screen shows it, and a later day kill ends the
game. -/
def cex1Game : Game := mkGame [tributeA, tributeB, tributeC] cex1Pools {}

/-- Random schedule for `cex1Game`: shuffles take 0s, the kill draws use
7/10 coins to beat the reroll rate, and index picks select the intended
events. -/
def cex1Rand : RandSrc :=
  randOfList [0, 0, 0, mkRat 7 10, mkRat 1 2, 0,
              0, 0, 0, 0,  0, 0, 0, 0,
              0, mkRat 1 2, mkRat 7 10]

/-- Pools driving the C2 counterexample: the bloodbath pool only offers
the composition-crashing event, the day pool a harmless one. -/
def cex2Pools : EventList := { bloodbath := some #[evPoke], day := some #[evNap] }

/-- Two tributes; the first advance throws during composition, the
second succeeds. -/
def cex2Game : Game := mkGame [tributeA, tributeB] cex2Pools {}

/-- Pools driving the C8 counterexample: a kill accepted first, then the
composition-crashing event aborts the round before the roster filter. -/
def cex8Pools : EventList := { bloodbath := some #[evKill, evPoke] }

/-- Three tributes for the C8 counterexample. -/
def cex8Game : Game := mkGame [tributeA, tributeB, tributeC] cex8Pools {}

/-- Random schedule for `cex8Game`: shuffle 0s, accept the kill with a
7/10 coin, then draw the crashing event with index 1. -/
def cex8Rand : RandSrc := randOfList [0, 0, 0, mkRat 7 10, mkRat 1 2]

/-- A game configured with an Absolute required-fatality value of 0 (the
C5 counterexample: the stored target is `some 0`, which the event filter
treats as unconfigured). -/
def cex5Game : Game :=
  mkGame [tributeA, tributeB] {}
    { required_fatalities_mode := .Absolute, required_fatalities := 0 }

/-- Benign pools for witness games: only the harmless event
everywhere. -/
def okPools : EventList :=
  { bloodbath := some #[evNap], day := some #[evNap], night := some #[evNap] }

/-- A two-tribute game that runs forever without deaths, used to witness
the universal theorems. -/
def okGame : Game := mkGame [tributeA, tributeB] okPools {}

/-- A game stuck in the terminal-fault state, used to witness the DEAD
absorption theorem. -/
def deadGame : Game := { okGame with state := .DEAD }

/-! ## Bridge lemmas for the kernel-reducible rational operations -/

set_option maxRecDepth 100000

theorem ratMul_eq (a b : ℚ) : ratMul a b = a * b := by
  rw [ratMul, Rat.mul_def, Rat.normalize_eq_mkRat]

theorem ratSub_eq (a b : ℚ) : ratSub a b = a - b := by
  rw [ratSub, Rat.sub_def']

theorem ratFloor_eq (q : ℚ) : ratFloor q = ⌊q⌋ := by
  rw [ratFloor, Rat.floor_def, Int.fdiv_eq_ediv _ (by positivity)]

theorem ratCeil_eq (q : ℚ) : ratCeil q = ⌈q⌉ := by
  rw [ratCeil, ratFloor_eq, Int.floor_neg, neg_neg]

/-- The concrete fixture events are exactly what the `Event` constructor
produces for their templates. -/
theorem fixturesValid :
    mkEvent "%0 kills %1" [1] [0] = .ok evKill ∧
    mkEvent "%0 naps" = .ok evNap ∧
    mkEvent "%0 pokes %w1" = .ok evPoke := by decide

/-! ## Claim theorems -/

/-- Claim C3: the claim states that `players_involved` counts every
specifier `%N %A %G %R %s %y %i %h %e %! %w` followed by a digit.  The
code's regex omits `e` and `w`: on the failing input
`"%0 strikes %w1"` it returns 1 although slot 1 is referenced, the
constructor accepts the event with `players_involved = 1`, and composing
it with its one participant then throws the bounds error that
construction was supposed to rule out.  The other parts of the claim
(the `"%0 and %2 fight"` example and the failure with no referenced
participant) hold. -/
theorem claim_C3_failing_eval :
    CalculateTributesInvolved "%0 and %2 fight" = 3 ∧
    (mkEvent "no placeholders").isOk = false ∧
    CalculateTributesInvolved "%0 strikes %w1" = 1 ∧
    mkEvent "%0 strikes %w1" = .ok { message := "%0 strikes %w1", players_involved := 1 } ∧
    ComposeEventMessage 1 [tributeA] "%0 strikes %w1" = .error (.bounds 1) := by
  decide

/-- Claim C4 (counterexample): the template `"a%e"` satisfies the
construction precondition (it references no slot at all), yet
composition with one participant fails — the source calls
`isdigit(m[i])` with `i` past the end of the string, a TypeError — so
"message composition succeeds without error" is false as stated. -/
theorem claim_C4_counterexample :
    slotsOk 1 ("a%e".data) = true ∧
    ComposeEventMessage 1 [tributeA] "a%e" = .error .typeError := by
  decide

/-- Claim C6 (counterexample): composing `"%0 kills %1."` with [A, B]
does not yield exactly `[ref A, " kills ", ref B, "."]` — the composer
pushes the (empty) literal run preceding the first placeholder, so the
actual output carries a leading `""` segment. -/
theorem claim_C6_counterexample :
    ComposeEventMessage 2 [tributeA, tributeB] "%0 kills %1." =
      .ok [.lit "", .name "A", .lit " kills ", .name "B", .lit "."] ∧
    [Seg.lit "", .name "A", .lit " kills ", .name "B", .lit "."] ≠
      [Seg.name "A", .lit " kills ", .name "B", .lit "."] := by
  decide

/-- Claim C6 (amended): composing `"%0 kills %1."` with [A, B] yields
the segment sequence `["", ref A, " kills ", ref B, "."]` — typed
name references interleaved with literal segments, never concatenated,
with an empty leading literal segment for the placeholder that starts
the template. -/
theorem claim_C6_amended :
    ComposeEventMessage 2 [tributeA, tributeB] "%0 kills %1." =
      .ok [.lit "", .name "A", .lit " kills ", .name "B", .lit "."] := by
  decide

/-- Claim C10 (counterexample): for a specifier-plus-digit placeholder
ending the template (`"sees %N1"`), the consumed characters are *not*
re-emitted: the scanner updates `prev` past them and the output ends in
an empty literal segment instead of a trailing `"%N1"`. -/
theorem claim_C10_counterexample :
    ComposeEventMessage 2 [tributeA, tributeThey] "sees %N1" =
      .ok [.lit "sees ", .lit "they", .lit ""] ∧
    Seg.lit "%N1" ∉ [Seg.lit "sees ", Seg.lit "they", Seg.lit ""] := by
  decide

/-- Claim C5 (counterexample): with mode Absolute and value 0 a target
*is* configured (`required_fatalities = some 0`) and the running count 0
has reached it, so the claim demands that the fatal event be rejected;
but `if (this.required_fatalities)` is falsy for 0, the reroll branch
runs instead, and with a coin of 9/10 (at reroll rate 6/10) the fatal
event is accepted. -/
theorem claim_C5_counterexample :
    cex5Game.required_fatalities = some 0 ∧
    RequirementsSatisfied cex5Game.required_fatalities cex5Game.fatality_reroll_rate
      cex5Game.tributes cex5Game.tributes_alive evKill 0 2 0 (fun _ => mkRat 9 10) 0
      = (true, 1) := by
  decide

set_option maxHeartbeats 4000000 in
/-- Claim C1 (counterexample): in the concrete game `cex1Game` the fifth
advance call simulates a final day round and enters `END_RESULTS`; its
snapshot's tributes-died field is the accumulation buffer `#[1]`
(the death since the last fallen screen), *not* the full death record
`#[1, 2]` that the claim requires for calls entering `END_RESULTS`
(tribute 2 died in the already-displayed bloodbath). -/
theorem claim_C1_counterexample :
    (advanceIter cex1Rand 5 cex1Game 0).1.state = .END_RESULTS ∧
    ((advanceIter cex1Rand 5 cex1Game 0).2.2.getLast?.map
      (fun r => r.map (·.tributes_died))) = some (.ok #[1]) ∧
    deadIndices (advanceIter cex1Rand 5 cex1Game 0).1 = #[1, 2] ∧
    (#[1] : Array Nat) ≠ #[1, 2] := by
  decide

set_option maxHeartbeats 1000000 in
/-- Claim C2 (counterexample): the first advance of `cex2Game` returns
an error (a message-composition bounds error thrown during round
simulation), but the machine is left in `IN_ROUND`, not `DEAD`, and the
next advance call succeeds — refuting "permanently DEAD and every
subsequent call returns an Error". -/
theorem claim_C2_counterexample :
    (Game.AdvanceGame zeroRand cex2Game 0).1 = .error (.compose (.bounds 1)) ∧
    (Game.AdvanceGame zeroRand cex2Game 0).2.1.state = .IN_ROUND ∧
    (Game.AdvanceGame zeroRand (Game.AdvanceGame zeroRand cex2Game 0).2.1
      (Game.AdvanceGame zeroRand cex2Game 0).2.2).1.isOk = true := by
  decide

set_option maxHeartbeats 1000000 in
/-- Claim C8 (counterexample): in `cex8Game` the bloodbath kills tribute
2 and then a later event's message composition throws; the exception
skips the alive-roster filter, so at the advance boundary tribute 2 has
`died_in_round` set *and* still appears in `tributes_alive`, refuting
the separation half of the claim. -/
theorem claim_C8_counterexample :
    (Game.AdvanceGame cex8Rand cex8Game 0).1 = .error (.compose (.bounds 1)) ∧
    diedOf (Game.AdvanceGame cex8Rand cex8Game 0).2.1 2 = some 0 ∧
    (2 : Nat) ∈ ((Game.AdvanceGame cex8Rand cex8Game 0).2.1.tributes_alive).toList := by
  decide

/-! ## Generic helper lemmas -/

theorem isOk_map (f : α → β) (x : Except ε α) : (x.map f).isOk = x.isOk := by
  cases x <;> rfl

/-- A successful tick returns exactly the render state built from the
post-transition game and the pre-transition display kind. -/
theorem advance_ok_snap (f : RandSrc) (g : Game) (ix : Nat) (snap : GameRenderState)
    (h : (Game.AdvanceGame f g ix).1 = .ok snap) :
    snap = mkRenderState (TickRenderState g.state) (Game.AdvanceGame f g ix).2.1 := by
  cases hs : g.state <;>
    simp only [Game.AdvanceGame, hs] at h ⊢
  all_goals try (cases h; rfl)
  all_goals try (exact absurd h (by simp))
  all_goals
    unfold roundResult at h
    split at h
    · exact absurd h (by simp)
    · cases h; rfl

/-- Claim C1 (amended): for every successful advance() call, the
snapshot's tributes-died field is the full list of tributes with a death
record exactly when the post-transition state is `END`; for every other
call — including the one entering `END_RESULTS` — it is the accumulation
buffer of deaths since the last `NEW_ROUND` reset. -/
theorem claim_C1_amended (f : RandSrc) (g : Game) (ix : Nat) (snap : GameRenderState)
    (h : (Game.AdvanceGame f g ix).1 = .ok snap) :
    snap.tributes_died =
      (if (Game.AdvanceGame f g ix).2.1.state = .END
       then deadIndices (Game.AdvanceGame f g ix).2.1
       else (Game.AdvanceGame f g ix).2.1.tributes_died) := by
  rw [advance_ok_snap f g ix snap h]
  rfl

set_option maxHeartbeats 1000000 in
/-- Claim C1 (witness): the first tick of the concrete game `okGame`
succeeds and its snapshot's tributes-died field follows the amended
rule. -/
theorem claim_C1_witness :
    ∃ snap, (Game.AdvanceGame zeroRand okGame 0).1 = .ok snap ∧
      snap.tributes_died =
        (if (Game.AdvanceGame zeroRand okGame 0).2.1.state = .END
         then deadIndices (Game.AdvanceGame zeroRand okGame 0).2.1
         else (Game.AdvanceGame zeroRand okGame 0).2.1.tributes_died) := by
  have hok : (Game.AdvanceGame zeroRand okGame 0).1.isOk = true := by decide
  cases h : (Game.AdvanceGame zeroRand okGame 0).1 with
  | error e =>
    rw [h] at hok
    simp [Except.isOk, Except.toBool] at hok
  | ok snap => exact ⟨snap, rfl, claim_C1_amended zeroRand okGame 0 snap h⟩

/-- Claim C2 (amended): the `DEAD` state is absorbing — once the machine
is in `DEAD`, every subsequent advance() call returns the internal-state
error and the machine stays in `DEAD`.  (An error from a throw during
round simulation, by contrast, leaves the machine in `IN_ROUND`; see the
counterexample.) -/
theorem claim_C2_amended (f : RandSrc) (g : Game) (ix n : Nat) (h : g.state = .DEAD) :
    (∀ r ∈ (advanceIter f n g ix).2.2, r = .error .internalState) ∧
    (advanceIter f n g ix).1.state = .DEAD := by
  induction n generalizing g ix with
  | zero => exact ⟨by simp [advanceIter], by simpa [advanceIter] using h⟩
  | succ n ih =>
    have hstep : Game.AdvanceGame f g ix =
        (.error .internalState, { g with state := .DEAD }, ix) := by
      simp only [Game.AdvanceGame, h]
    have ih' := ih { g with state := .DEAD } ix rfl
    constructor
    · intro r hr
      simp only [advanceIter, hstep] at hr
      rcases List.mem_cons.mp hr with h1 | h2
      · exact h1
      · exact ih'.1 r h2
    · simp only [advanceIter, hstep]
      exact ih'.2

/-- Claim C2 (witness): two ticks of a game in the `DEAD` state both
return the internal-state error and leave the machine in `DEAD`. -/
theorem claim_C2_witness :
    (∀ r ∈ (advanceIter zeroRand 2 deadGame 0).2.2, r = .error .internalState) ∧
    (advanceIter zeroRand 2 deadGame 0).1.state = .DEAD :=
  claim_C2_amended zeroRand deadGame 0 2 rfl

/-- Claim C5 (amended): the required-fatality target is converted to
`ceil(clamp(value,0,100)/100 * tributeCount)` in Percent mode,
`max(0, value)` in Absolute mode, and is absent in Disable mode.  When a
*non-zero* target is configured, events without a fatality are rejected
while the round's fatality count is below the target and events with a
fatality are rejected once it is reached, with no randomness consumed;
when no target is configured **or the configured target is 0** (the code
tests JS truthiness), an event with at least one fatality is instead
rejected exactly when the per-draw coin is below `fatality_reroll_rate`,
and is otherwise subject only to the tag-requirement check. -/
theorem claim_C5_amended :
    (∀ (tributes : List Tribute) events opts rate,
      opts.required_fatalities_mode = .Percent →
      (mkGame tributes events opts rate).required_fatalities =
        some ((⌈clamp opts.required_fatalities 0 100 / 100 * (tributes.length : ℚ)⌉ : ℤ) : ℚ)) ∧
    (∀ (tributes : List Tribute) events opts rate,
      opts.required_fatalities_mode = .Absolute →
      (mkGame tributes events opts rate).required_fatalities =
        some (max 0 opts.required_fatalities)) ∧
    (∀ (tributes : List Tribute) events opts rate,
      opts.required_fatalities_mode = .Disable →
      (mkGame tributes events opts rate).required_fatalities = none) ∧
    (∀ (req : Option ℚ) (rate : ℚ) trs alive e (ct tl dtr : Nat) (f : RandSrc) (ix : Nat) (r : ℚ),
      req = some r → r ≠ 0 → (dtr : ℚ) < r → e.fatalities = [] →
      RequirementsSatisfied req rate trs alive e ct tl dtr f ix = (false, ix)) ∧
    (∀ (req : Option ℚ) (rate : ℚ) trs alive e (ct tl dtr : Nat) (f : RandSrc) (ix : Nat) (r : ℚ),
      req = some r → r ≠ 0 → r ≤ (dtr : ℚ) → e.fatalities ≠ [] →
      RequirementsSatisfied req rate trs alive e ct tl dtr f ix = (false, ix)) ∧
    (∀ (req : Option ℚ) (rate : ℚ) trs alive e (ct tl dtr : Nat) (f : RandSrc) (ix : Nat),
      (req = none ∨ req = some 0) → ¬ tl < e.players_involved →
      e.fatalities ≠ [] → f ix < rate →
      RequirementsSatisfied req rate trs alive e ct tl dtr f ix = (false, ix + 1)) ∧
    (∀ (req : Option ℚ) (rate : ℚ) trs alive e (ct tl dtr : Nat) (f : RandSrc) (ix : Nat),
      (req = none ∨ req = some 0) → ¬ tl < e.players_involved →
      e.fatalities ≠ [] → ¬ f ix < rate →
      RequirementsSatisfied req rate trs alive e ct tl dtr f ix =
        (tagReqsOk trs alive ct e.requirements, ix + 1)) := by
  refine ⟨?_, ?_, ?_, ?_, ?_, ?_, ?_⟩
  · intro tributes events opts rate hm
    simp only [mkGame, hm, ratCeil_eq, ratMul_eq]
    congr 2
    rw [show (mkRat 1 100 : ℚ) = 1 / 100 by rw [Rat.mkRat_eq_divInt, Rat.divInt_eq_div]; norm_num]
    ring_nf
  · intro tributes events opts rate hm
    simp only [mkGame, hm]
  · intro tributes events opts rate hm
    simp only [mkGame, hm]
  · intro req rate trs alive e ct tl dtr f ix r hreq hr0 hlt hfat
    subst hreq
    by_cases htl : tl < e.players_involved <;>
      simp [RequirementsSatisfied, htl, hr0, hlt, hfat]
  · intro req rate trs alive e ct tl dtr f ix r hreq hr0 hge hfat
    subst hreq
    by_cases htl : tl < e.players_involved <;>
      simp [RequirementsSatisfied, htl, hr0, hge, hfat, not_lt.mpr hge]
  · intro req rate trs alive e ct tl dtr f ix hreq htl hfat hcoin
    rcases hreq with h | h <;> subst h <;>
      simp [RequirementsSatisfied, htl, hfat, hcoin]
  · intro req rate trs alive e ct tl dtr f ix hreq htl hfat hcoin
    rcases hreq with h | h <;> subst h <;>
      simp [RequirementsSatisfied, htl, hfat, hcoin]

/-- Claim C5 (witness): with a configured target of 2 and no fatalities
so far, a fatality-free event is rejected without consuming
randomness. -/
theorem claim_C5_witness :
    RequirementsSatisfied (some 2) (mkRat 6 10) cex5Game.tributes cex5Game.tributes_alive
      evNap 0 2 0 zeroRand 5 = (false, 5) :=
  claim_C5_amended.2.2.2.1 (some 2) (mkRat 6 10) cex5Game.tributes cex5Game.tributes_alive
    evNap 0 2 0 zeroRand 5 2 rfl (by norm_num) (by norm_num) rfl

/-- `randomInt(0, n)` stays below `n` for random values in [0, 1). -/
theorem randIdx_lt (q : ℚ) (n : Nat) (h0 : 0 ≤ q) (h1 : q < 1) (hn : 0 < n) :
    randIdx q n < n := by
  rw [randIdx, ratFloor_eq, ratMul_eq]
  have hlt : ⌊q * (n : ℚ)⌋ < (n : ℤ) := by
    apply Int.floor_lt.mpr
    push_cast
    calc q * (n : ℚ) < 1 * (n : ℚ) := by
          exact mul_lt_mul_of_pos_right h1 (by exact_mod_cast hn)
    _ = (n : ℚ) := one_mul _
  omega

/-- An accepted event never involves more players than are left. -/
theorem reqSat_true_players (req : Option ℚ) (rate : ℚ) (trs : Array Tribute)
    (alive : Array Nat) (e : Event) (ct tl dtr : Nat) (f : RandSrc) (ix : Nat)
    (h : (RequirementsSatisfied req rate trs alive e ct tl dtr f ix).1 = true) :
    e.players_involved ≤ tl := by
  by_cases htl : tl < e.players_involved
  · simp [RequirementsSatisfied, htl] at h
  · omega


/-- An event drawn successfully within the budget belongs to the pool
and fits in the remaining window. -/
theorem drawEvent_some (f : RandSrc) (pool : Array Event) (req : Option ℚ) (rate : ℚ)
    (trs : Array Tribute) (alive : Array Nat) (ct tl dtr : Nat)
    (hf : ∀ k, 0 ≤ f k ∧ f k < 1) (hpool : 0 < pool.size) :
    ∀ n ix e ix', drawEvent f pool req rate trs alive ct tl dtr n ix = (some e, ix') →
      e ∈ pool.toList ∧ e.players_involved ≤ tl := by
  intro n
  induction n with
  | zero => intro ix e ix' h; simp [drawEvent] at h
  | succ n ih =>
    intro ix e ix' h
    rw [drawEvent] at h
    by_cases hs : (RequirementsSatisfied req rate trs alive
        (pool.getD (randIdx (f ix) pool.size) default) ct tl dtr f (ix + 1)).1
    · rw [if_pos hs] at h
      obtain ⟨h1, h2⟩ := Prod.mk.injEq _ _ _ _ ▸ h
      obtain rfl : pool.getD (randIdx (f ix) pool.size) default = e := Option.some.inj h1
      have hidx : randIdx (f ix) pool.size < pool.size :=
        randIdx_lt _ _ (hf ix).1 (hf ix).2 hpool
      constructor
      · rw [Array.getD_eq_get?, Array.getElem?_eq_getElem hidx, Option.getD_some]
        exact Array.getElem_mem_toList pool hidx
      · exact reqSat_true_players _ _ _ _ _ _ _ _ _ _ hs
    · rw [if_neg hs] at h
      exact ih _ _ _ h

/-- A continuing loop iteration strictly shrinks `tributes_left` when
every pool event involves at least one player. -/
theorem roundIter_next_tl (f : RandSrc) (pool : Array Event) (req : Option ℚ) (rate : ℚ)
    (alive : Array Nat) (trs : Array Tribute) (rd : GameRound)
    (ct tl : Nat) (ac : Int) (dtr ix : Nat)
    (trs' : Array Tribute) (rd' : GameRound) (ct' tl' : Nat) (ac' : Int) (dtr' ix' : Nat)
    (hf : ∀ k, 0 ≤ f k ∧ f k < 1) (hpool : 0 < pool.size)
    (hpi : ∀ e ∈ pool.toList, 1 ≤ e.players_involved)
    (h : roundIter f pool req rate alive trs rd ct tl ac dtr ix =
      .next trs' rd' ct' tl' ac' dtr' ix') :
    tl' < tl := by
  rw [roundIter] at h
  rcases hdr : drawEvent f pool req rate trs alive ct tl dtr (drawBudget pool + 1) ix
    with ⟨eo, ix1⟩
  rw [hdr] at h
  cases eo with
  | none => simp at h
  | some e =>
    obtain ⟨hmem, hple⟩ := drawEvent_some f pool req rate trs alive ct tl dtr hf hpool _ _ _ _ hdr
    have h1 := hpi e hmem
    simp only at h
    split at h
    · simp at h
    · split at h
      · simp at h
      · injection h with h1 h2 h3 h4 h5 h6 h7
        omega

/-- A loop iteration that exits never reports fuel exhaustion. -/
theorem roundIter_exit_ne (f : RandSrc) (pool : Array Event) (req : Option ℚ) (rate : ℚ)
    (alive : Array Nat) (trs : Array Tribute) (rd : GameRound)
    (ct tl : Nat) (ac : Int) (dtr ix : Nat) (out : LoopOut)
    (h : roundIter f pool req rate alive trs rd ct tl ac dtr ix = .exit out) :
    out.exit ≠ .fuelOut := by
  rw [roundIter] at h
  rcases hdr : drawEvent f pool req rate trs alive ct tl dtr (drawBudget pool + 1) ix
    with ⟨eo, ix1⟩
  rw [hdr] at h
  cases eo with
  | none =>
    injection h with h'
    rw [← h']
    simp
  | some e =>
    simp only at h
    split at h
    · injection h with h'
      rw [← h']
      simp
    · split at h
      · injection h with h'
        rw [← h']
        simp
      · exact absurd h (by simp)

/-- Claim C9: round simulation terminates for every roster and random
outcome when the event pool consists of constructor-valid events (each
involving at least one player): the draw loop is capped at
`max(100, pool_size*10) + 1` attempts (the budget baked into
`drawEvent`), each accepted event strictly decreases the un-windowed
slot count, and hence the selection loop's result is already stable at
`tributes_left + 1` fuel — the loop always reaches one of its exits and
never runs out of fuel. -/
theorem claim_C9 (f : RandSrc) (pool : Array Event) (req : Option ℚ) (rate : ℚ)
    (alive : Array Nat)
    (hf : ∀ k, 0 ≤ f k ∧ f k < 1) (hpool : 0 < pool.size)
    (hpi : ∀ e ∈ pool.toList, 1 ≤ e.players_involved) :
    ∀ tl fuel trs rd ct ac dtr ix, tl + 1 ≤ fuel →
      roundLoop f pool req rate alive fuel trs rd ct tl ac dtr ix =
        roundLoop f pool req rate alive (tl + 1) trs rd ct tl ac dtr ix ∧
      (roundLoop f pool req rate alive (tl + 1) trs rd ct tl ac dtr ix).exit ≠ .fuelOut := by
  intro tl
  induction tl using Nat.strong_induction_on with
  | _ tl ih =>
    intro fuel trs rd ct ac dtr ix hfuel
    obtain ⟨fuel, rfl⟩ : ∃ k, fuel = k + 1 := ⟨fuel - 1, by omega⟩
    by_cases h0 : tl = 0
    · subst h0
      constructor <;> simp [roundLoop]
    · rw [roundLoop, roundLoop, if_neg h0, if_neg h0]
      cases hit : roundIter f pool req rate alive trs rd ct tl ac dtr ix with
      | exit out =>
        exact ⟨rfl, roundIter_exit_ne f pool req rate alive trs rd ct tl ac dtr ix out hit⟩
      | next trs' rd' ct' tl' ac' dtr' ix' =>
        have htl' : tl' < tl :=
          roundIter_next_tl f pool req rate alive trs rd ct tl ac dtr ix
            trs' rd' ct' tl' ac' dtr' ix' hf hpool hpi hit
        have k1 := ih tl' htl' fuel trs' rd' ct' ac' dtr' ix' (by omega)
        have k2 := ih tl' htl' tl trs' rd' ct' ac' dtr' ix' (by omega)
        constructor
        · show roundLoop f pool req rate alive fuel trs' rd' ct' tl' ac' dtr' ix' =
            roundLoop f pool req rate alive tl trs' rd' ct' tl' ac' dtr' ix'
          rw [k1.1, k2.1]
        · show (roundLoop f pool req rate alive tl trs' rd' ct' tl' ac' dtr' ix').exit ≠ .fuelOut
          rw [k2.1]
          exact k2.2

/-- Claim C9 (witness): a concrete two-tribute roster with the harmless
pool: the loop result is independent of extra fuel and terminates. -/
theorem claim_C9_witness :
    roundLoop zeroRand #[evNap] none (mkRat 6 10) #[0, 1] 4 okGame.tributes
      ⟨#[], #[], 0, .bloodbath⟩ 0 2 2 0 0 =
      roundLoop zeroRand #[evNap] none (mkRat 6 10) #[0, 1] 3 okGame.tributes
        ⟨#[], #[], 0, .bloodbath⟩ 0 2 2 0 0 ∧
    (roundLoop zeroRand #[evNap] none (mkRat 6 10) #[0, 1] 3 okGame.tributes
      ⟨#[], #[], 0, .bloodbath⟩ 0 2 2 0 0).exit ≠ .fuelOut :=
  claim_C9 zeroRand #[evNap] none (mkRat 6 10) #[0, 1]
    (fun k => ⟨by norm_num [zeroRand], by norm_num [zeroRand]⟩) (by decide)
    (by decide) 2 4 okGame.tributes ⟨#[], #[], 0, .bloodbath⟩ 0 2 0 0 (by omega)

/-- Stage advancement never touches the round history. -/
theorem AGS_rounds (f : RandSrc) (g : Game) (ix : Nat) :
    (AdvanceGameStage f g ix).2.1.rounds = g.rounds := by
  unfold AdvanceGameStage
  split_ifs <;> rfl

/-- Stage advancement keeps `last_feast` while fewer than five rounds
have passed since the last feast. -/
theorem AGS_lf_small (f : RandSrc) (g : Game) (ix : Nat)
    (h : g.rounds.size - g.last_feast < 5) :
    (AdvanceGameStage f g ix).2.1.last_feast = g.last_feast := by
  unfold AdvanceGameStage
  split_ifs <;> first | rfl | omega

/-- The first round of a game is always the bloodbath. -/
theorem AGS_result_0 (f : RandSrc) (g : Game) (ix : Nat) (h : g.rounds.size = 0) :
    (AdvanceGameStage f g ix).1 = .bloodbath := by
  unfold AdvanceGameStage
  rw [if_pos h]

/-- A bloodbath is followed by a day. -/
theorem AGS_result_bb (f : RandSrc) (g : Game) (ix : Nat) (h : g.rounds.size ≠ 0)
    (hs : g.stage = .bloodbath) :
    (AdvanceGameStage f g ix).1 = .day := by
  unfold AdvanceGameStage
  rw [if_neg h, if_pos (Or.inr hs)]

/-- A day is followed by a night. -/
theorem AGS_result_day (f : RandSrc) (g : Game) (ix : Nat) (h : g.rounds.size ≠ 0)
    (hs : g.stage = .day) :
    (AdvanceGameStage f g ix).1 = .night := by
  unfold AdvanceGameStage
  rw [if_neg h, if_neg (by simp [hs]), if_neg (by simp [hs])]

/-- A night is followed by a day when fewer than five rounds have
passed since the last feast. -/
theorem AGS_result_night_small (f : RandSrc) (g : Game) (ix : Nat) (h : g.rounds.size ≠ 0)
    (hs : g.stage = .night) (hr : g.rounds.size - g.last_feast < 5) :
    (AdvanceGameStage f g ix).1 = .day := by
  unfold AdvanceGameStage
  rw [if_neg h, if_neg (by simp [hs]), if_pos hs, if_neg (by omega)]

/-- A loop iteration never changes the stage or index recorded in the
round under construction. -/
theorem roundIter_meta (f : RandSrc) (pool : Array Event) (req : Option ℚ) (rate : ℚ)
    (alive : Array Nat) (trs : Array Tribute) (rd : GameRound)
    (ct tl : Nat) (ac : Int) (dtr ix : Nat) :
    (∀ out, roundIter f pool req rate alive trs rd ct tl ac dtr ix = .exit out →
      out.round.stage = rd.stage ∧ out.round.index = rd.index) ∧
    (∀ trs' rd' ct' tl' ac' dtr' ix',
      roundIter f pool req rate alive trs rd ct tl ac dtr ix =
        .next trs' rd' ct' tl' ac' dtr' ix' →
      rd'.stage = rd.stage ∧ rd'.index = rd.index) := by
  unfold roundIter
  rcases drawEvent f pool req rate trs alive ct tl dtr (drawBudget pool + 1) ix with ⟨eo, ix1⟩
  cases eo with
  | none =>
    constructor
    · intro out h
      injection h with h'
      rw [← h']
      exact ⟨rfl, rfl⟩
    · intro trs' rd' ct' tl' ac' dtr' ix' h
      exact absurd h (by simp)
  | some e =>
    simp only
    split
    · constructor
      · intro out h
        injection h with h'
        rw [← h']
        exact ⟨rfl, rfl⟩
      · intro trs' rd' ct' tl' ac' dtr' ix' h
        exact absurd h (by simp)
    · split
      · constructor
        · intro out h
          injection h with h'
          rw [← h']
          exact ⟨rfl, rfl⟩
        · intro trs' rd' ct' tl' ac' dtr' ix' h
          exact absurd h (by simp)
      · constructor
        · intro out h
          exact absurd h (by simp)
        · intro trs' rd' ct' tl' ac' dtr' ix' h
          injection h with h1 h2 h3 h4 h5 h6 h7
          rw [← h2]
          exact ⟨rfl, rfl⟩

/-- The selection loop never changes the stage or index recorded in
the round under construction. -/
theorem roundLoop_meta (f : RandSrc) (pool : Array Event) (req : Option ℚ) (rate : ℚ)
    (alive : Array Nat) :
    ∀ fuel trs rd ct tl ac dtr ix,
      (roundLoop f pool req rate alive fuel trs rd ct tl ac dtr ix).round.stage = rd.stage ∧
      (roundLoop f pool req rate alive fuel trs rd ct tl ac dtr ix).round.index = rd.index := by
  intro fuel
  induction fuel with
  | zero => intro trs rd ct tl ac dtr ix; exact ⟨rfl, rfl⟩
  | succ fuel ih =>
    intro trs rd ct tl ac dtr ix
    rw [roundLoop]
    by_cases h0 : tl = 0
    · rw [if_pos h0]
      exact ⟨rfl, rfl⟩
    · rw [if_neg h0]
      cases hit : roundIter f pool req rate alive trs rd ct tl ac dtr ix with
      | exit out =>
        exact (roundIter_meta f pool req rate alive trs rd ct tl ac dtr ix).1 out hit
      | next trs' rd' ct' tl' ac' dtr' ix' =>
        obtain ⟨hst, hidx⟩ :=
          (roundIter_meta f pool req rate alive trs rd ct tl ac dtr ix).2
            trs' rd' ct' tl' ac' dtr' ix' hit
        obtain ⟨ih1, ih2⟩ := ih trs' rd' ct' tl' ac' dtr' ix'
        exact ⟨ih1.trans hst, ih2.trans hidx⟩

/-- Round post-processing appends exactly one round, carrying the
loop round's stage and index, and touches neither the stage field nor
`last_feast`. -/
theorem roundFinish_meta (f : RandSrc) (g₁ : Game) (out : LoopOut) :
    ∃ rdX, (roundFinish f g₁ out).1.rounds = g₁.rounds.push rdX ∧
      rdX.stage = out.round.stage ∧ rdX.index = out.round.index ∧
      (roundFinish f g₁ out).1.stage = g₁.stage ∧
      (roundFinish f g₁ out).1.last_feast = g₁.last_feast := by
  rcases out with ⟨trs, rd, oix, ex⟩
  cases ex <;> exact ⟨_, rfl, rfl, rfl, rfl, rfl⟩

/-- One round simulation appends exactly one round, recording the
current stage and the previous round count, and preserves the stage
field and `last_feast`. -/
theorem DoRoundImpl_meta (f : RandSrc) (g : Game) (ix : Nat) :
    ∃ rdX, (DoRoundImpl f g ix).1.rounds = g.rounds.push rdX ∧
      rdX.stage = g.stage ∧ rdX.index = g.rounds.size ∧
      (DoRoundImpl f g ix).1.stage = g.stage ∧
      (DoRoundImpl f g ix).1.last_feast = g.last_feast := by
  unfold DoRoundImpl
  by_cases hpool : (stagePool g.event_list g.stage).size = 0
  · rw [if_pos hpool]
    exact ⟨_, rfl, rfl, rfl, rfl, rfl⟩
  · rw [if_neg hpool]
    obtain ⟨hst, hidx⟩ := roundLoop_meta f (stagePool g.event_list g.stage)
      g.required_fatalities g.fatality_reroll_rate (shuffle f g.tributes_alive ix).1
      (g.tributes_alive.size + 1) g.tributes
      ⟨#[], #[], g.rounds.size, g.stage⟩ 0 g.tributes_alive.size (g.tributes_alive.size : Int)
      0 (shuffle f g.tributes_alive ix).2
    obtain ⟨rdX, h1, h2, h3, h4, h5⟩ := roundFinish_meta f
      { g with game_title := stageTitle g, tributes_alive := (shuffle f g.tributes_alive ix).1 }
      (roundLoop f (stagePool g.event_list g.stage) g.required_fatalities
        g.fatality_reroll_rate (shuffle f g.tributes_alive ix).1
        (g.tributes_alive.size + 1) g.tributes
        ⟨#[], #[], g.rounds.size, g.stage⟩ 0 g.tributes_alive.size (g.tributes_alive.size : Int)
        0 (shuffle f g.tributes_alive ix).2)
    exact ⟨rdX, h1, h2.trans hst, h3.trans hidx, h4, h5⟩

/-- The end-condition check only touches the machine state. -/
theorem CheckGameShouldEnd_meta (g : Game) :
    (CheckGameShouldEnd g).1.rounds = g.rounds ∧
    (CheckGameShouldEnd g).1.stage = g.stage ∧
    (CheckGameShouldEnd g).1.last_feast = g.last_feast := by
  unfold CheckGameShouldEnd
  split_ifs <;> exact ⟨rfl, rfl, rfl⟩

/-- The after-round bookkeeping only touches the machine state. -/
theorem roundEndCheck_meta (r : Game × Nat × Option GameErr) :
    (roundEndCheck r).1.rounds = r.1.rounds ∧
    (roundEndCheck r).1.stage = r.1.stage ∧
    (roundEndCheck r).1.last_feast = r.1.last_feast := by
  rcases r with ⟨g, ix, err⟩
  cases err with
  | none =>
    obtain ⟨c1, c2, c3⟩ := CheckGameShouldEnd_meta g
    simp only [roundEndCheck]
    split_ifs <;> exact ⟨c1, c2, c3⟩
  | some e => exact ⟨rfl, rfl, rfl⟩

/-- A full `#DoRound` appends exactly one round carrying the stage
chosen by `#AdvanceGameStage`. -/
theorem DoRound_meta (f : RandSrc) (g : Game) (ix : Nat) :
    ∃ rdX, (DoRound f g ix).1.rounds = g.rounds.push rdX ∧
      rdX.stage = (AdvanceGameStage f g ix).1 ∧
      rdX.index = g.rounds.size ∧
      (DoRound f g ix).1.stage = (AdvanceGameStage f g ix).1 ∧
      (DoRound f g ix).1.last_feast = (AdvanceGameStage f g ix).2.1.last_feast := by
  obtain ⟨rdX, h1, h2, h3, h4, h5⟩ := DoRoundImpl_meta f
    { (AdvanceGameStage f g ix).2.1 with stage := (AdvanceGameStage f g ix).1 }
    (AdvanceGameStage f g ix).2.2
  rw [AGS_rounds] at h1 h3
  obtain ⟨c1, c2, c3⟩ := roundEndCheck_meta (DoRoundImpl f
    { (AdvanceGameStage f g ix).2.1 with stage := (AdvanceGameStage f g ix).1 }
    (AdvanceGameStage f g ix).2.2)
  exact ⟨rdX, c1.trans h1, h2, h3, c2.trans h4, c3.trans h5⟩

/-- A round preserves the stage-sequencing invariant. -/
theorem DoRound_stageInv (f : RandSrc) (g : Game) (ix : Nat) (h : StageInv g) :
    StageInv (DoRound f g ix).1 := by
  obtain ⟨hpref, hsync⟩ := h
  obtain ⟨rdX, h1, h2, h3, h4, h5⟩ := DoRound_meta f g ix
  by_cases hbig : 4 ≤ g.rounds.size
  · constructor
    · intro i hi gr hgr
      rw [h1, Array.getElem?_push] at hgr
      rw [if_neg (by omega)] at hgr
      exact hpref i hi gr hgr
    · intro hle
      rw [h1, Array.size_push] at hle
      omega
  · have hsy := hsync (by omega)
    have hlf : (DoRound f g ix).1.last_feast = g.last_feast := by
      rw [h5, AGS_lf_small]
      omega
    have hk : g.rounds.size = 0 ∨ g.rounds.size = 1 ∨ g.rounds.size = 2 ∨ g.rounds.size = 3 := by
      omega
    have hst : (AdvanceGameStage f g ix).1 = canonicalStages.getD g.rounds.size .day := by
      rcases hk with hk | hk | hk | hk
      · rw [AGS_result_0 f g ix hk, hk]; rfl
      · rw [AGS_result_bb f g ix (by omega) (by rw [hsy.2, if_neg (by omega), hk]; rfl), hk]; rfl
      · rw [AGS_result_day f g ix (by omega) (by rw [hsy.2, if_neg (by omega), hk]; rfl), hk]; rfl
      · rw [AGS_result_night_small f g ix (by omega)
            (by rw [hsy.2, if_neg (by omega), hk]; rfl) (by rw [hsy.1]; omega), hk]
        rfl
    constructor
    · intro i hi gr hgr
      rw [h1, Array.getElem?_push] at hgr
      by_cases hieq : i = g.rounds.size
      · rw [if_pos hieq] at hgr
        obtain rfl := Option.some.inj hgr
        rw [h2, hst, hieq]
      · rw [if_neg hieq] at hgr
        exact hpref i hi gr hgr
    · intro _
      refine ⟨hlf.trans hsy.1, ?_⟩
      rw [h1, Array.size_push, if_neg (by omega), h4, hst]
      congr 1

/-- Every tick preserves the stage-sequencing invariant. -/
theorem advance_stageInv (f : RandSrc) (g : Game) (ix : Nat) (h : StageInv g) :
    StageInv (Game.AdvanceGame f g ix).2.1 := by
  cases hs : g.state <;> simp only [Game.AdvanceGame, hs]
  case DEAD => exact h
  case NEW_ROUND =>
    exact DoRound_stageInv f { g with state := .IN_ROUND, tributes_died := #[] } ix h
  case IN_ROUND => exact DoRound_stageInv f g ix h
  all_goals exact h

/-- Iterated ticks preserve the stage-sequencing invariant. -/
theorem advanceIter_stageInv (f : RandSrc) :
    ∀ n (g : Game) (ix : Nat), StageInv g → StageInv (advanceIter f n g ix).1 := by
  intro n
  induction n with
  | zero => intro g ix h; exact h
  | succ n ih =>
    intro g ix h
    rw [advanceIter]
    exact ih _ _ (advance_stageInv f g ix h)

/-- Claim C7: for every freshly constructed game and every outcome of
the random source, whenever an `i`-th round exists with `i < 4` its
stage is the canonical one: round 0 = BLOODBATH, round 1 = DAY,
round 2 = NIGHT, round 3 = DAY — deterministically, since a feast
requires at least five rounds since game start. -/
theorem claim_C7 (f : RandSrc) (tributes : List Tribute) (events : EventList)
    (opts : GameOptions) (rate : ℚ) (ix n i : Nat) (gr : GameRound) (hi : i < 4)
    (hgr : (advanceIter f n (mkGame tributes events opts rate) ix).1.rounds[i]? = some gr) :
    gr.stage = canonicalStages.getD i .day := by
  have base : StageInv (mkGame tributes events opts rate) := by
    constructor
    · intro j hj gr' hgr'
      simp [mkGame] at hgr'
    · intro _
      exact ⟨rfl, rfl⟩
  exact (advanceIter_stageInv f n (mkGame tributes events opts rate) ix base).1 i hi gr hgr

set_option maxRecDepth 100000 in
set_option maxHeartbeats 2000000 in
/-- Claim C7 (witness): in a concrete two-tribute game the fourth
simulated round exists and its stage is DAY. -/
theorem claim_C7_witness :
    ∃ gr, (advanceIter zeroRand 5 (mkGame [tributeA, tributeB] okPools {} (mkRat 6 10)) 0).1.rounds[3]?
        = some gr ∧
      gr.stage = canonicalStages.getD 3 .day := by
  have h : (advanceIter zeroRand 5 (mkGame [tributeA, tributeB] okPools {} (mkRat 6 10)) 0).1.rounds[3]?
      = some ((advanceIter zeroRand 5 (mkGame [tributeA, tributeB] okPools {}
          (mkRat 6 10)) 0).1.rounds.getD 3 default) := by decide
  exact ⟨_, h, claim_C7 zeroRand [tributeA, tributeB] okPools {} (mkRat 6 10) 0 5 3 _
    (by omega) h⟩

/-! ## Death-record invariants (claim C8) -/

theorem array_mem_iff_getElem (a : Array α) (x : α) :
    x ∈ a.toList ↔ ∃ k, ∃ h : k < a.size, a[k] = x := by
  rw [List.mem_iff_getElem]
  constructor
  · rintro ⟨k, hk, he⟩
    exact ⟨k, by simpa [Array.length_toList] using hk, by simpa [Array.getElem_toList] using he⟩
  · rintro ⟨k, hk, he⟩
    exact ⟨k, by simpa [Array.length_toList] using hk, by simpa [Array.getElem_toList] using he⟩

theorem arrSwap_size (a : Array α) (i j : Nat) : (arrSwap a i j).size = a.size := by
  unfold arrSwap
  split_ifs <;> simp

theorem arrSwap_eq_pos (a : Array α) (i j : Nat) (h : i < a.size ∧ j < a.size) :
    arrSwap a i j =
      (a.set ⟨i, h.1⟩ (a.get ⟨j, h.2⟩)).set ⟨j, by simpa using h.2⟩ (a.get ⟨i, h.1⟩) := by
  unfold arrSwap
  rw [dif_pos h]

theorem arrSwap_getElem (a : Array α) (i j k : Nat) (h : i < a.size ∧ j < a.size)
    (hk : k < a.size) (hk2 : k < (arrSwap a i j).size) :
    (arrSwap a i j)[k] =
      if k = j then a[i] else if k = i then a[j] else a[k] := by
  have hrw := arrSwap_eq_pos a i j h
  simp only [hrw, Array.getElem_set, Array.get_eq_getElem]
  by_cases e1 : k = j
  · simp [e1]
  · by_cases e2 : k = i
    · have hji : ¬ (j = i) := by omega
      have hij : ¬ (i = j) := by omega
      simp [e1, e2, hji, hij, Ne.symm e1]
    · simp [e1, e2, Ne.symm e1, Ne.symm e2]

theorem arrSwap_mem (a : Array α) (i j : Nat) (x : α) :
    x ∈ (arrSwap a i j).toList ↔ x ∈ a.toList := by
  by_cases h : i < a.size ∧ j < a.size
  · rw [array_mem_iff_getElem, array_mem_iff_getElem]
    constructor
    · rintro ⟨k, hk, he⟩
      have hk2 := hk
      rw [arrSwap_size] at hk
      rw [arrSwap_getElem a i j k h hk hk2] at he
      by_cases e1 : k = j
      · exact ⟨i, h.1, by simpa [e1] using he⟩
      · by_cases e2 : k = i
        · have hij : ¬ (i = j) := by omega
          exact ⟨j, h.2, by simpa [e1, e2, hij] using he⟩
        · exact ⟨k, hk, by simpa [e1, e2] using he⟩
    · rintro ⟨k, hk, he⟩
      by_cases e1 : k = j
      · refine ⟨i, by rw [arrSwap_size]; exact h.1, ?_⟩
        rw [arrSwap_getElem a i j i h h.1 (by rw [arrSwap_size]; exact h.1)]
        by_cases eij : i = j
        · subst eij; subst e1; simpa using he
        · subst e1; simp [eij, he]
      · by_cases e2 : k = i
        · refine ⟨j, by rw [arrSwap_size]; exact h.2, ?_⟩
          rw [arrSwap_getElem a i j j h h.2 (by rw [arrSwap_size]; exact h.2)]
          subst e2; simp [he]
        · refine ⟨k, by rw [arrSwap_size]; exact hk, ?_⟩
          rw [arrSwap_getElem a i j k h hk (by rw [arrSwap_size]; exact hk)]
          simp [e1, e2, he]
  · unfold arrSwap
    rw [dif_neg h]

theorem shuffleGo_size (f : RandSrc) (a : Array α) (n ix : Nat) :
    (shuffleGo f a n ix).1.size = a.size := by
  induction n generalizing a ix with
  | zero => rfl
  | succ i ih => rw [shuffleGo, ih, arrSwap_size]

theorem shuffleGo_mem (f : RandSrc) (a : Array α) (n ix : Nat) (x : α) :
    x ∈ (shuffleGo f a n ix).1.toList ↔ x ∈ a.toList := by
  induction n generalizing a ix with
  | zero => rfl
  | succ i ih => rw [shuffleGo, ih, arrSwap_mem]

theorem shuffle_size (f : RandSrc) (a : Array α) (ix : Nat) :
    (shuffle f a ix).1.size = a.size := by
  unfold shuffle
  split
  · rfl
  · exact shuffleGo_size f a (a.size - 1) ix

theorem shuffle_mem (f : RandSrc) (a : Array α) (ix : Nat) (x : α) :
    x ∈ (shuffle f a ix).1.toList ↔ x ∈ a.toList := by
  unfold shuffle
  split
  · rfl
  · exact shuffleGo_mem f a (a.size - 1) ix x

theorem getD_eq_of_lt (a : Array α) (i : Nat) (d : α) (h : i < a.size) :
    a.getD i d = a[i] := by
  rw [Array.getD_eq_get?, Array.getElem?_eq_getElem h, Option.getD_some]

theorem getD_modify (a : Array α) (j i : Nat) (g : α → α) (d : α) :
    (a.modify j g).getD i d =
      if i = j ∧ j < a.size then g (a.getD i d) else a.getD i d := by
  by_cases hi : i < a.size
  · have hi2 : i < (a.modify j g).size := by rwa [Array.size_modify]
    rw [getD_eq_of_lt _ _ _ hi2, getD_eq_of_lt _ _ _ hi, Array.getElem_modify]
    by_cases hij : i = j
    · subst hij
      rw [if_pos rfl, if_pos ⟨rfl, hi⟩]
    · rw [if_neg (fun h => hij h.symm), if_neg (fun h => hij h.1)]
  · have h2 : ¬ i < (a.modify j g).size := by rwa [Array.size_modify]
    have e1 : (a.modify j g).getD i d = d := by
      simp [Array.getD, h2, hi]
    have e2 : a.getD i d = d := by
      simp [Array.getD, hi]
    have hc : ¬ (i = j ∧ j < a.size) := by rintro ⟨rfl, h⟩; exact hi h
    rw [e1, e2, if_neg hc]

theorem evolve_refl (alive : Array Nat) (rdIdx : Nat) (a : Array Tribute) :
    DiedEvolve alive rdIdx a a :=
  fun _ => Or.inl rfl

theorem evolve_trans (alive : Array Nat) (rdIdx : Nat) (a b c : Array Tribute)
    (h1 : DiedEvolve alive rdIdx a b) (h2 : DiedEvolve alive rdIdx b c) :
    DiedEvolve alive rdIdx a c := by
  intro i
  rcases h2 i with h | ⟨hv, hm⟩
  · rcases h1 i with h1i | ⟨hv1, hm1⟩
    · exact Or.inl (h.trans h1i)
    · exact Or.inr ⟨h.trans hv1, hm1⟩
  · exact Or.inr ⟨hv, hm⟩

theorem modifyDied_evolve (alive : Array Nat) (rdIdx : Nat) (a : Array Tribute) (j : Nat)
    (hj : j ∈ alive.toList ∨ a.size ≤ j) :
    DiedEvolve alive rdIdx a
      (a.modify j (fun t => { t with died_in_round := some rdIdx })) := by
  intro i
  unfold diedT
  rw [getD_modify]
  by_cases hc : i = j ∧ j < a.size
  · rw [if_pos hc]
    rcases hj with hm | hs
    · exact Or.inr ⟨rfl, hc.1 ▸ hm⟩
    · omega
  · rw [if_neg hc]
    exact Or.inl rfl

theorem modifyKills_died (a : Array Tribute) (j n : Nat) (i : Nat) :
    diedT (a.modify j (fun t => { t with kills := t.kills + n })) i = diedT a i := by
  unfold diedT
  rw [getD_modify]
  split_ifs <;> rfl

theorem getD_alive_mem (alive : Array Nat) (k s : Nat) :
    alive.getD k s ∈ alive.toList ∨ s ≤ alive.getD k s := by
  by_cases h : k < alive.size
  · rw [getD_eq_of_lt _ _ _ h]
    exact Or.inl (Array.getElem_mem_toList alive h)
  · have : alive.getD k s = s := by simp [Array.getD, h]
    rw [this]
    exact Or.inr le_rfl

theorem foldl_modifyDied_evolve (alive : Array Nat) (rdIdx s : Nat) (l : List Nat) :
    ∀ a : Array Tribute, a.size = s → (∀ j ∈ l, j ∈ alive.toList ∨ s ≤ j) →
      (l.foldl (fun b i => b.modify i
        (fun t => { t with died_in_round := some rdIdx })) a).size = s ∧
      DiedEvolve alive rdIdx a
        (l.foldl (fun b i => b.modify i
          (fun t => { t with died_in_round := some rdIdx })) a) := by
  induction l with
  | nil => exact fun a hs _ => ⟨hs, evolve_refl alive rdIdx a⟩
  | cons j l ih =>
    intro a hs hl
    rw [List.foldl_cons]
    obtain ⟨ihs, ihe⟩ := ih (a.modify j (fun t => { t with died_in_round := some rdIdx }))
      (by rw [Array.size_modify]; exact hs)
      (fun x hx => hl x (List.mem_cons_of_mem j hx))
    refine ⟨ihs, evolve_trans alive rdIdx _ _ _ ?_ ihe⟩
    exact modifyDied_evolve alive rdIdx a j (by rw [hs]; exact hl j (List.mem_cons_self j l))

theorem foldl_modifyKills_died (l : List Nat) (n : Nat) (idx : Array Tribute → Nat → Nat) :
    ∀ (a : Array Tribute) (i : Nat),
      diedT (l.foldl (fun b k => b.modify (idx b k)
        (fun t => { t with kills := t.kills + n })) a) i = diedT a i := by
  induction l with
  | nil => intro a i; rfl
  | cons j l ih =>
    intro a i
    rw [List.foldl_cons, ih, modifyKills_died]

theorem trs2_evolve (alive : Array Nat) (rdIdx : Nat) (trs : Array Tribute)
    (e : Event) (ct : Nat) :
    DiedEvolve alive rdIdx trs
      (e.killers.foldl
        (fun a k => a.modify (alive.getD (ct + k) a.size)
          (fun t => { t with kills := t.kills + e.fatalities.length }))
        ((e.fatalities.map (fun fslot => alive.getD (ct + fslot) trs.size)).foldl
          (fun a i => a.modify i (fun t => { t with died_in_round := some rdIdx })) trs)) := by
  have hfold := foldl_modifyDied_evolve alive rdIdx trs.size
    (e.fatalities.map (fun fslot => alive.getD (ct + fslot) trs.size)) trs rfl
    (by
      intro j hj
      rw [List.mem_map] at hj
      obtain ⟨fslot, hf1, hfe⟩ := hj
      rw [← hfe]
      exact getD_alive_mem alive (ct + fslot) trs.size)
  intro i
  rw [foldl_modifyKills_died e.killers e.fatalities.length
    (fun b k => alive.getD (ct + k) b.size)]
  exact hfold.2 i

theorem roundIter_evolve (f : RandSrc) (pool : Array Event) (req : Option ℚ) (rate : ℚ)
    (alive : Array Nat) (trs : Array Tribute) (rd : GameRound)
    (ct tl : Nat) (ac : Int) (dtr ix : Nat) :
    (∀ out, roundIter f pool req rate alive trs rd ct tl ac dtr ix = .exit out →
      DiedEvolve alive rd.index trs out.tributes) ∧
    (∀ trs' rd' ct' tl' ac' dtr' ix',
      roundIter f pool req rate alive trs rd ct tl ac dtr ix =
        .next trs' rd' ct' tl' ac' dtr' ix' →
      DiedEvolve alive rd.index trs trs') := by
  unfold roundIter
  rcases drawEvent f pool req rate trs alive ct tl dtr (drawBudget pool + 1) ix with ⟨eo, ix1⟩
  cases eo with
  | none =>
    constructor
    · intro out h
      injection h with h'
      rw [← h']
      exact evolve_refl alive rd.index trs
    · intro trs' rd' ct' tl' ac' dtr' ix' h
      exact absurd h (by simp)
  | some e =>
    simp only
    split
    · constructor
      · intro out h
        injection h with h'
        rw [← h']
        exact trs2_evolve alive rd.index trs e ct
      · intro trs' rd' ct' tl' ac' dtr' ix' h
        exact absurd h (by simp)
    · split
      · constructor
        · intro out h
          injection h with h'
          rw [← h']
          exact trs2_evolve alive rd.index trs e ct
        · intro trs' rd' ct' tl' ac' dtr' ix' h
          exact absurd h (by simp)
      · constructor
        · intro out h
          exact absurd h (by simp)
        · intro trs' rd' ct' tl' ac' dtr' ix' h
          injection h with h1 h2 h3 h4 h5 h6 h7
          rw [← h1]
          exact trs2_evolve alive rd.index trs e ct

theorem roundLoop_evolve (f : RandSrc) (pool : Array Event) (req : Option ℚ) (rate : ℚ)
    (alive : Array Nat) :
    ∀ fuel trs rd ct tl ac dtr ix,
      DiedEvolve alive rd.index trs
        (roundLoop f pool req rate alive fuel trs rd ct tl ac dtr ix).tributes := by
  intro fuel
  induction fuel with
  | zero => intro trs rd ct tl ac dtr ix; exact evolve_refl alive rd.index trs
  | succ fuel ih =>
    intro trs rd ct tl ac dtr ix
    rw [roundLoop]
    by_cases h0 : tl = 0
    · rw [if_pos h0]
      exact evolve_refl alive rd.index trs
    · rw [if_neg h0]
      cases hit : roundIter f pool req rate alive trs rd ct tl ac dtr ix with
      | exit out =>
        exact (roundIter_evolve f pool req rate alive trs rd ct tl ac dtr ix).1 out hit
      | next trs' rd' ct' tl' ac' dtr' ix' =>
        have hev1 := (roundIter_evolve f pool req rate alive trs rd ct tl ac dtr ix).2
          trs' rd' ct' tl' ac' dtr' ix' hit
        have hidx := ((roundIter_meta f pool req rate alive trs rd ct tl ac dtr ix).2
          trs' rd' ct' tl' ac' dtr' ix' hit).2
        have hev2 := ih trs' rd' ct' tl' ac' dtr' ix'
        rw [hidx] at hev2
        exact evolve_trans alive rd.index trs trs' _ hev1 hev2

theorem AGS_tributes (f : RandSrc) (g : Game) (ix : Nat) :
    (AdvanceGameStage f g ix).2.1.tributes = g.tributes ∧
    (AdvanceGameStage f g ix).2.1.tributes_alive = g.tributes_alive := by
  unfold AdvanceGameStage
  split_ifs <;> exact ⟨rfl, rfl⟩

theorem CheckGameShouldEnd_tributes (g : Game) :
    (CheckGameShouldEnd g).1.tributes = g.tributes ∧
    (CheckGameShouldEnd g).1.tributes_alive = g.tributes_alive := by
  unfold CheckGameShouldEnd
  split_ifs <;> exact ⟨rfl, rfl⟩

theorem roundEndCheck_tributes (r : Game × Nat × Option GameErr) :
    (roundEndCheck r).1.tributes = r.1.tributes ∧
    (roundEndCheck r).1.tributes_alive = r.1.tributes_alive ∧
    (roundEndCheck r).2.2 = r.2.2 := by
  rcases r with ⟨g, ix, err⟩
  cases err with
  | none =>
    obtain ⟨c1, c2⟩ := CheckGameShouldEnd_tributes g
    simp only [roundEndCheck]
    split_ifs <;> exact ⟨c1, c2, rfl⟩
  | some e => exact ⟨rfl, rfl, rfl⟩

theorem diedOf_eq (g : Game) (i : Nat) : diedOf g i = diedT g.tributes i := rfl

theorem roundFinish_died (f : RandSrc) (g₁ : Game) (out : LoopOut)
    (hok : (roundFinish f g₁ out).2.2 = none) :
    AliveUndead (roundFinish f g₁ out).1 ∧
    (roundFinish f g₁ out).1.tributes = out.tributes := by
  rcases out with ⟨otrs, ord, oix, oexit⟩
  cases oexit with
  | err e => exact absurd hok (by simp [roundFinish])
  | fuelOut => exact absurd hok (by simp [roundFinish])
  | done =>
    refine ⟨?_, rfl⟩
    intro i hi
    simp only [roundFinish] at hi
    rw [← Array.mem_def, Array.mem_filter] at hi
    exact of_decide_eq_true hi.2
  | budget =>
    refine ⟨?_, rfl⟩
    intro i hi
    simp only [roundFinish] at hi
    rw [← Array.mem_def, Array.mem_filter] at hi
    exact of_decide_eq_true hi.2
  | fewAlive =>
    refine ⟨?_, rfl⟩
    intro i hi
    simp only [roundFinish] at hi
    rw [← Array.mem_def, Array.mem_filter] at hi
    exact of_decide_eq_true hi.2

theorem DoRoundImpl_died (f : RandSrc) (g : Game) (ix : Nat) (hA : AliveUndead g)
    (hok : (DoRoundImpl f g ix).2.2 = none) :
    AliveUndead (DoRoundImpl f g ix).1 ∧
    (∀ i r, diedOf g i = some r → diedOf (DoRoundImpl f g ix).1 i = some r) := by
  unfold DoRoundImpl at hok ⊢
  by_cases hpool : (stagePool g.event_list g.stage).size = 0
  · rw [if_pos hpool]
    refine ⟨?_, fun i r h => h⟩
    intro i hi
    exact hA i ((shuffle_mem f g.tributes_alive ix i).mp hi)
  · rw [if_neg hpool] at hok ⊢
    obtain ⟨hAl, htr⟩ := roundFinish_died f _ _ hok
    refine ⟨hAl, ?_⟩
    intro i r h
    rw [diedOf_eq, htr]
    have hev := roundLoop_evolve f (stagePool g.event_list g.stage) g.required_fatalities
      g.fatality_reroll_rate (shuffle f g.tributes_alive ix).1 (g.tributes_alive.size + 1)
      g.tributes
      { game_events := #[], died_this_round := #[], index := g.rounds.size, stage := g.stage }
      0 g.tributes_alive.size (g.tributes_alive.size : Int) 0
      (shuffle f g.tributes_alive ix).2
    rcases hev i with he | ⟨hv, hm⟩
    · rw [he, ← diedOf_eq]
      exact h
    · have := hA i ((shuffle_mem f g.tributes_alive ix i).mp hm)
      rw [this] at h
      exact absurd h (by simp)

theorem DoRound_died (f : RandSrc) (g : Game) (ix : Nat) (hA : AliveUndead g)
    (hok : (DoRound f g ix).2.2 = none) :
    AliveUndead (DoRound f g ix).1 ∧
    (∀ i r, diedOf g i = some r → diedOf (DoRound f g ix).1 i = some r) := by
  obtain ⟨hagt, hagA⟩ := AGS_tributes f g ix
  unfold DoRound at hok ⊢
  obtain ⟨hrt, hrA, hre⟩ := roundEndCheck_tributes (DoRoundImpl f
    { (AdvanceGameStage f g ix).2.1 with stage := (AdvanceGameStage f g ix).1 }
    (AdvanceGameStage f g ix).2.2)
  rw [hre] at hok
  have hAS : AliveUndead
      { (AdvanceGameStage f g ix).2.1 with stage := (AdvanceGameStage f g ix).1 } := by
    intro i hi
    rw [diedOf_eq]
    show diedT (AdvanceGameStage f g ix).2.1.tributes i = none
    rw [hagt, ← diedOf_eq]
    apply hA
    have he : ({ (AdvanceGameStage f g ix).2.1 with
        stage := (AdvanceGameStage f g ix).1 } : Game).tributes_alive
          = g.tributes_alive := by rw [← hagA]
    rwa [he] at hi
  obtain ⟨hAl, hMono⟩ := DoRoundImpl_died f _ _ hAS hok
  constructor
  · intro i hi
    rw [hrA] at hi
    have := hAl i hi
    rwa [diedOf_eq, hrt, ← diedOf_eq]
  · intro i r h
    rw [diedOf_eq, hrt, ← diedOf_eq]
    apply hMono
    rw [diedOf_eq]
    show diedT (AdvanceGameStage f g ix).2.1.tributes i = some r
    rw [hagt, ← diedOf_eq]
    exact h

theorem advance_died (f : RandSrc) (g : Game) (ix : Nat) (hA : AliveUndead g)
    (hok : (Game.AdvanceGame f g ix).1.isOk = true) :
    AliveUndead (Game.AdvanceGame f g ix).2.1 ∧
    (∀ i r, diedOf g i = some r → diedOf (Game.AdvanceGame f g ix).2.1 i = some r) := by
  cases hs : g.state <;> simp only [Game.AdvanceGame, hs] at hok ⊢
  case DEAD => simp [Except.isOk, Except.toBool] at hok
  case NEW_ROUND =>
    rcases hdr : (DoRound f { g with state := .IN_ROUND, tributes_died := #[] } ix).2.2
      with _ | e
    · obtain ⟨h1, h2⟩ := DoRound_died f { g with state := .IN_ROUND, tributes_died := #[] } ix
        (fun i hi => hA i hi) hdr
      exact ⟨h1, fun i r h => h2 i r h⟩
    · rw [hdr] at hok
      simp [roundResult, Except.isOk, Except.toBool] at hok
  case IN_ROUND =>
    rcases hdr : (DoRound f g ix).2.2 with _ | e
    · obtain ⟨h1, h2⟩ := DoRound_died f g ix hA hdr
      exact ⟨h1, fun i r h => h2 i r h⟩
    · rw [hdr] at hok
      simp [roundResult, Except.isOk, Except.toBool] at hok
  all_goals exact ⟨fun i hi => hA i hi, fun i r h => h⟩

/-- Claim C8 (amended): along any sequence of ticks in which every
`advance()` call returns a successful snapshot, starting from a state
whose alive roster is free of death records, a set `died_in_round` is
never cleared or reassigned, and the final state again has a death-free
alive roster.  (The unamended claim fails on error-returning ticks: see
the C8 counterexample.) -/
theorem claim_C8_amended (f : RandSrc) (n : Nat) :
    ∀ (g : Game) (ix : Nat), AliveUndead g →
      (∀ r ∈ (advanceIter f n g ix).2.2, r.isOk = true) →
      AliveUndead (advanceIter f n g ix).1 ∧
      (∀ i r, diedOf g i = some r → diedOf (advanceIter f n g ix).1 i = some r) := by
  induction n with
  | zero => intro g ix hA _; exact ⟨hA, fun i r h => h⟩
  | succ n ih =>
    intro g ix hA hok
    rw [advanceIter] at hok ⊢
    have hst : (Game.AdvanceGame f g ix).1.isOk = true :=
      hok _ (List.mem_cons_self _ _)
    obtain ⟨hA1, hm1⟩ := advance_died f g ix hA hst
    obtain ⟨hA2, hm2⟩ := ih (Game.AdvanceGame f g ix).2.1 (Game.AdvanceGame f g ix).2.2 hA1
      (fun r hr => hok r (List.mem_cons_of_mem _ hr))
    exact ⟨hA2, fun i r h => hm2 i r (hm1 i r h)⟩

set_option maxRecDepth 100000 in
set_option maxHeartbeats 2000000 in
/-- Claim C8 (witness): the amended invariant instantiated on a
concrete two-tribute game ticked twice. -/
theorem claim_C8_witness :
    AliveUndead (advanceIter zeroRand 2 okGame 0).1 ∧
    (∀ i r, diedOf okGame i = some r →
      diedOf (advanceIter zeroRand 2 okGame 0).1 i = some r) :=
  claim_C8_amended zeroRand 2 okGame 0
    (by unfold AliveUndead; decide) (by decide)

/-! ## Composition success and trailing-placeholder behaviour (claims C4, C10) -/

theorem nextPctAux_le (l : List Char) : nextPctAux l ≤ l.length := by
  induction l with
  | nil => exact le_rfl
  | cons c cs ih =>
    rw [nextPctAux]
    split_ifs
    · exact Nat.zero_le _
    · simpa using ih

theorem nextPctAux_get (l : List Char) (h : nextPctAux l < l.length) :
    l.get? (nextPctAux l) = some '%' := by
  induction l with
  | nil => simp [nextPctAux] at h
  | cons c cs ih =>
    rw [nextPctAux]
    rw [nextPctAux] at h
    split_ifs with hc
    · simpa using hc
    · rw [if_neg hc] at h
      simpa using ih (by simpa using h)

theorem nextPct_ge (m : List Char) (i : Nat) : i ≤ nextPct m i :=
  Nat.le_add_right i _

theorem nextPct_get (m : List Char) (i : Nat) (hi : i ≤ m.length)
    (h : nextPct m i < m.length) : m.get? (nextPct m i) = some '%' := by
  unfold nextPct at h ⊢
  have hlen : (m.drop i).length = m.length - i := List.length_drop i m
  have haux : nextPctAux (m.drop i) < (m.drop i).length := by omega
  have := nextPctAux_get (m.drop i) haux
  rw [List.get?_drop] at this
  exact this

theorem slotsOk_spec (count : Nat) (m : List Char) (h : slotsOk count m = true)
    (p : Nat) (hp : p < m.length) (d : Nat) (hd : slotAt m p = some d) : d < count := by
  unfold slotsOk at h
  rw [List.all_eq_true] at h
  have hx := h p (List.mem_range.mpr hp)
  rw [hd] at hx
  simpa using hx

/-- Under the construction precondition (every referenced slot below the
participant count) and in the absence of a trailing bare specifier
letter, the scan loop never errors: every branch either terminates with
`.ok` or recurses at a strictly larger position. -/
theorem composeGo_ok (count : Nat) (parts : List Tribute) (m : List Char)
    (hslots : slotsOk count m = true)
    (hnocrash : trailingSpecCrash m = false)
    (hparts : count ≤ parts.length) :
    ∀ fuel prev i, i ≤ m.length → m.length < fuel + i →
      (composeGo count parts m fuel prev i).isOk = true := by
  intro fuel
  induction fuel with
  | zero => intro prev i hi hfi; omega
  | succ fuel ih =>
    intro prev i hi hfi
    rw [composeGo]
    simp only
    by_cases hj : m.length ≤ nextPct m i
    · rw [if_pos hj]
      rfl
    · rw [if_neg hj]
      have hjlt : nextPct m i < m.length := by omega
      have hji : i ≤ nextPct m i := nextPct_ge m i
      have hpct : m.get? (nextPct m i) = some '%' := nextPct_get m i hi hjlt
      cases hk : m.get? (nextPct m i + 1) with
      | none => rfl
      | some c =>
        dsimp only
        have hklt : nextPct m i + 1 < m.length := by
          by_contra hcon
          rw [List.get?_eq_none.mpr (by omega)] at hk
          cases hk
        by_cases hdig : isdigit c = true
        · rw [if_pos hdig]
          have hslot : slotAt m (nextPct m i) = some (c.toNat - char_zero) := by
            unfold slotAt
            rw [hpct, if_pos rfl, hk]
            dsimp only
            rw [if_pos hdig]
          have hdc : c.toNat - char_zero < count :=
            slotsOk_spec count m hslots _ hjlt _ hslot
          rw [if_neg (by omega)]
          cases hp : parts.get? (c.toNat - char_zero) with
          | none =>
            have := List.get?_eq_none.mp hp
            omega
          | some t =>
            dsimp only
            by_cases hend : m.length ≤ nextPct m i + 1 + 1
            · rw [if_pos hend]
              rfl
            · rw [if_neg hend]
              rw [isOk_map]
              exact ih (nextPct m i + 1 + 1) (nextPct m i + 1 + 1) (by omega) (by omega)
        · rw [if_neg hdig]
          by_cases hspec : specChars.contains c = true
          · rw [if_pos hspec]
            cases hk2 : m.get? (nextPct m i + 1 + 1) with
            | none =>
              exfalso
              have hlen2 : m.length ≤ nextPct m i + 1 + 1 := List.get?_eq_none.mp hk2
              have heq : nextPct m i = m.length - 2 := by omega
              have hcr : trailingSpecCrash m = true := by
                unfold trailingSpecCrash
                rw [Bool.and_eq_true, Bool.and_eq_true]
                refine ⟨⟨?_, ?_⟩, ?_⟩
                · simp
                  omega
                · rw [← heq, hpct]
                  simp
                · have hlast : m.length - 1 = nextPct m i + 1 := by omega
                  rw [hlast, hk]
                  simpa using hspec
              rw [hnocrash] at hcr
              exact absurd hcr (by simp)
            | some c2 =>
              dsimp only
              have hk2lt : nextPct m i + 1 + 1 < m.length := by
                by_contra hcon
                rw [List.get?_eq_none.mpr (by omega)] at hk2
                cases hk2
              by_cases hdig2 : isdigit c2 = true
              · rw [if_pos hdig2]
                have hslot : slotAt m (nextPct m i) = some (c2.toNat - char_zero) := by
                  unfold slotAt
                  rw [hpct, if_pos rfl, hk]
                  dsimp only
                  rw [if_neg hdig, if_pos hspec,
                    show m.get? (nextPct m i + 2) = some c2 from hk2]
                  dsimp only
                  rw [if_pos hdig2]
                have hdc : c2.toNat - char_zero < count :=
                  slotsOk_spec count m hslots _ hjlt _ hslot
                rw [if_neg (by omega)]
                cases hp : parts.get? (c2.toNat - char_zero) with
                | none =>
                  have := List.get?_eq_none.mp hp
                  omega
                | some t =>
                  dsimp only
                  rw [isOk_map]
                  exact ih (nextPct m i + 1 + 1 + 1) (nextPct m i + 1 + 1 + 1)
                    (by omega) (by omega)
              · rw [if_neg hdig2]
                rw [isOk_map]
                exact ih (nextPct m i) (nextPct m i + 1 + 1) (by omega) (by omega)
          · rw [if_neg hspec]
            rw [isOk_map]
            exact ih (nextPct m i) (nextPct m i + 1) (by omega) (by omega)

/-- Claim C4 (amended): for every template and participant list
satisfying the construction precondition, composition succeeds provided
the template does not end in `%` plus a bare specifier letter (that
case crashes: see the C4 counterexample), and an unknown specifier such
as `%Q0` is kept as ordinary literal text with no character dropped. -/
theorem claim_C4_amended (count : Nat) (parts : List Tribute) (m : String)
    (hslots : slotsOk count m.data = true)
    (hnocrash : trailingSpecCrash m.data = false)
    (hparts : count ≤ parts.length) :
    (ComposeEventMessage count parts m).isOk = true ∧
    ComposeEventMessage 1 [tributeA] "100%Q0 sure" =
      .ok [.lit "100", .lit "%Q0 sure"] := by
  refine ⟨?_, by decide⟩
  unfold ComposeEventMessage
  exact composeGo_ok count parts m.data hslots hnocrash hparts _ 0 0 (by omega) (by omega)

/-- Claim C4 (witness): the amended success statement instantiated on
the template of claim C6. -/
theorem claim_C4_witness :
    (ComposeEventMessage 2 [tributeA, tributeB] "%0 kills %1.").isOk = true ∧
    ComposeEventMessage 1 [tributeA] "100%Q0 sure" =
      .ok [.lit "100", .lit "%Q0 sure"] :=
  claim_C4_amended 2 [tributeA, tributeB] "%0 kills %1."
    (by decide) (by decide) (by decide)

theorem except_map_ok (f : α → β) (x : Except ε α) (b : β)
    (h : x.map f = .ok b) : ∃ a, x = .ok a ∧ b = f a := by
  cases x with
  | error e => simp [Except.map] at h
  | ok a => exact ⟨a, rfl, by simpa [Except.map] using h.symm⟩

theorem nextPctAux_min (l : List Char) (p : Nat) (hp : l.get? p = some '%') :
    nextPctAux l ≤ p := by
  induction l generalizing p with
  | nil => simp at hp
  | cons c cs ih =>
    rw [nextPctAux]
    split_ifs with hc
    · exact Nat.zero_le p
    · cases p with
      | zero =>
        simp at hp
        exact absurd hp hc
      | succ q => simpa using Nat.succ_le_succ (ih q (by simpa using hp))

theorem nextPct_min (m : List Char) (i p : Nat) (hip : i ≤ p)
    (hp : m.get? p = some '%') : nextPct m i ≤ p := by
  unfold nextPct
  have h1 : (m.drop i).get? (p - i) = some '%' := by
    rw [List.get?_drop]
    rw [show i + (p - i) = p from by omega]
    exact hp
  have h2 := nextPctAux_min (m.drop i) (p - i) h1
  omega

/-- If the template ends in a plain `%d` placeholder whose digit
resolves to a participant, every successful composition ends with the
resolved name reference followed by a literal holding the re-emitted
placeholder characters. -/
theorem composeGo_tail (count : Nat) (parts : List Tribute) (m : List Char)
    (t : Tribute) (dc : Char)
    (hpc : m.get? (m.length - 2) = some '%')
    (hdc : m.get? (m.length - 1) = some dc)
    (hdig : isdigit dc = true)
    (ht : parts.get? (dc.toNat - char_zero) = some t)
    (hlen : 2 ≤ m.length) :
    ∀ fuel prev i segs, i ≤ m.length - 2 →
      composeGo count parts m fuel prev i = .ok segs →
      ∃ pre, segs = pre ++
        [.name t.raw_name, .lit (slice m (m.length - 2) m.length)] := by
  intro fuel
  induction fuel with
  | zero =>
    intro prev i segs hi hok
    exact absurd hok (by simp [composeGo])
  | succ fuel ih =>
    intro prev i segs hi hok
    rw [composeGo] at hok
    simp only at hok
    have hjle : nextPct m i ≤ m.length - 2 := nextPct_min m i (m.length - 2) hi hpc
    rw [if_neg (by omega)] at hok
    by_cases hj2 : nextPct m i = m.length - 2
    · have hk1 : m.get? (nextPct m i + 1) = some dc := by
        rw [show nextPct m i + 1 = m.length - 1 from by omega]
        exact hdc
      rw [hk1] at hok
      dsimp only at hok
      rw [if_pos hdig] at hok
      by_cases hb : count ≤ dc.toNat - char_zero
      · rw [if_pos hb] at hok
        exact absurd hok (by simp)
      · rw [if_neg hb, ht] at hok
        dsimp only at hok
        rw [if_pos (by omega)] at hok
        injection hok with h
        refine ⟨[.lit (slice m prev (nextPct m i))], ?_⟩
        rw [← h, hj2]
        rfl
    · have hjlt : nextPct m i < m.length - 2 := by omega
      cases hk : m.get? (nextPct m i + 1) with
      | none =>
        have := List.get?_eq_none.mp hk
        omega
      | some c =>
        rw [hk] at hok
        dsimp only at hok
        by_cases hdigc : isdigit c = true
        · rw [if_pos hdigc] at hok
          have hkne : nextPct m i + 1 ≠ m.length - 2 := by
            intro he
            rw [he, hpc] at hk
            injection hk with hc
            rw [← hc] at hdigc
            exact absurd hdigc (by decide)
          by_cases hb : count ≤ c.toNat - char_zero
          · rw [if_pos hb] at hok
            exact absurd hok (by simp)
          · rw [if_neg hb] at hok
            cases hpt : parts.get? (c.toNat - char_zero) with
            | none =>
              rw [hpt] at hok
              exact absurd hok (by simp)
            | some t2 =>
              rw [hpt] at hok
              dsimp only at hok
              rw [if_neg (by omega)] at hok
              obtain ⟨rest, hrec, hsegs⟩ := except_map_ok _ _ _ hok
              obtain ⟨pre, htl⟩ := ih (nextPct m i + 1 + 1) (nextPct m i + 1 + 1) rest
                (by omega) hrec
              refine ⟨.lit (slice m prev (nextPct m i)) :: .name t2.raw_name :: pre, ?_⟩
              rw [hsegs, htl]
              rfl
        · rw [if_neg hdigc] at hok
          by_cases hspec : specChars.contains c = true
          · rw [if_pos hspec] at hok
            have hkne : nextPct m i + 1 ≠ m.length - 2 := by
              intro he
              rw [he, hpc] at hk
              injection hk with hc
              rw [← hc] at hspec
              exact absurd hspec (by decide)
            cases hk2 : m.get? (nextPct m i + 1 + 1) with
            | none =>
              have := List.get?_eq_none.mp hk2
              omega
            | some c2 =>
              rw [hk2] at hok
              dsimp only at hok
              by_cases hdig2 : isdigit c2 = true
              · rw [if_pos hdig2] at hok
                have hk2ne : nextPct m i + 1 + 1 ≠ m.length - 2 := by
                  intro he
                  rw [he, hpc] at hk2
                  injection hk2 with hc
                  rw [← hc] at hdig2
                  exact absurd hdig2 (by decide)
                by_cases hb : count ≤ c2.toNat - char_zero
                · rw [if_pos hb] at hok
                  exact absurd hok (by simp)
                · rw [if_neg hb] at hok
                  cases hpt : parts.get? (c2.toNat - char_zero) with
                  | none =>
                    rw [hpt] at hok
                    exact absurd hok (by simp)
                  | some t2 =>
                    rw [hpt] at hok
                    dsimp only at hok
                    obtain ⟨rest, hrec, hsegs⟩ := except_map_ok _ _ _ hok
                    obtain ⟨pre, htl⟩ := ih (nextPct m i + 1 + 1 + 1)
                      (nextPct m i + 1 + 1 + 1) rest (by omega) hrec
                    refine ⟨.lit (slice m prev (nextPct m i)) ::
                      .lit (specText c t2) :: pre, ?_⟩
                    rw [hsegs, htl]
                    rfl
              · rw [if_neg hdig2] at hok
                obtain ⟨rest, hrec, hsegs⟩ := except_map_ok _ _ _ hok
                obtain ⟨pre, htl⟩ := ih (nextPct m i) (nextPct m i + 1 + 1) rest
                  (by omega) hrec
                refine ⟨.lit (slice m prev (nextPct m i)) :: pre, ?_⟩
                rw [hsegs, htl]
                rfl
          · rw [if_neg hspec] at hok
            obtain ⟨rest, hrec, hsegs⟩ := except_map_ok _ _ _ hok
            obtain ⟨pre, htl⟩ := ih (nextPct m i) (nextPct m i + 1) rest
              (by omega) hrec
            refine ⟨.lit (slice m prev (nextPct m i)) :: pre, ?_⟩
            rw [hsegs, htl]
            rfl

/-- Claim C10 (amended): when the final characters of the template are
a plain `%d` placeholder that resolves to participant `t`, composition
emits the name reference and then re-emits the consumed `%d` as a
trailing literal.  (For a specifier-plus-digit ending the consumed
characters are *not* re-emitted: see the C10 counterexample.) -/
theorem claim_C10_amended (count : Nat) (parts : List Tribute) (m : String)
    (t : Tribute) (dc : Char) (segs : List Seg)
    (hpc : m.data.get? (m.data.length - 2) = some '%')
    (hdc : m.data.get? (m.data.length - 1) = some dc)
    (hdig : isdigit dc = true)
    (ht : parts.get? (dc.toNat - char_zero) = some t)
    (hok : ComposeEventMessage count parts m = .ok segs) :
    (∃ pre, segs = pre ++
      [.name t.raw_name, .lit (slice m.data (m.data.length - 2) m.data.length)]) ∧
    ComposeEventMessage 2 [tributeA, tributeB] "A kills %1" =
      .ok [.lit "A kills ", .name "B", .lit "%1"] := by
  refine ⟨?_, by decide⟩
  have hlen : 2 ≤ m.data.length := by
    by_contra hc
    have h1 : m.data.length - 2 = 0 := by omega
    have h2 : m.data.length - 1 = 0 := by omega
    rw [h1] at hpc
    rw [h2] at hdc
    rw [hpc] at hdc
    injection hdc with he
    rw [← he] at hdig
    exact absurd hdig (by decide)
  exact composeGo_tail count parts m.data t dc hpc hdc hdig ht hlen _ 0 0 segs
    (by omega) hok

/-- Claim C10 (witness): the trailing duplication on the concrete
template of the claim. -/
theorem claim_C10_witness :
    (∃ pre, [Seg.lit "A kills ", .name "B", .lit "%1"] = pre ++
      [.name tributeB.raw_name, .lit (slice ("A kills %1" : String).data
        (("A kills %1" : String).data.length - 2) ("A kills %1" : String).data.length)]) ∧
    ComposeEventMessage 2 [tributeA, tributeB] "A kills %1" =
      .ok [.lit "A kills ", .name "B", .lit "%1"] :=
  claim_C10_amended 2 [tributeA, tributeB] "A kills %1" tributeB '1'
    [.lit "A kills ", .name "B", .lit "%1"]
    (by decide) (by decide) (by decide) (by decide) (by decide)

end HGS
